import Mathlib

/-!
Verification development for the `bun-isolated-runner` orchestration core.

The TypeScript source is shallowly embedded: every pure computation of the
runner (budget resolution, test-output parsing, percentile aggregation,
sticky-cache loading / partitioning / committing, retry replacement and the
worker-pool drain loop) is translated into an executable Lean definition.
Process spawning and file I/O are abstracted into oracle functions supplied
as parameters; the nondeterministic interleaving of concurrent workers is
modelled by a small-step transition function driven by an explicit schedule,
so that universally quantified properties range over every interleaving.
-/

namespace IsolatedRunner

/-- Result of executing (or cache-hitting) one test file, mirroring the
`TestResult` interface of the source.  Counts are modelled as integers
(JavaScript numbers) so that non-negativity is a provable property rather
than a typing artifact; `duration` is a non-negative clock difference. -/
structure TestResult where
  file : String
  passed : Bool
  passCount : Int
  failCount : Int
  skipCount : Int
  duration : Nat
  output : String
  error : Option String
  cached : Bool
deriving DecidableEq, Repr

/-- Characters treated as whitespace by the `\s` regex class and `trim`
(the common cases suffice for this development). -/
def isSpaceChar (c : Char) : Bool :=
  c = ' ' || c = '\t' || c = '\n' || c = '\r'

/-- Numeric value of a digit run, most significant first. -/
def natOfDigits (ds : List Char) : Nat :=
  ds.foldl (fun acc c => 10 * acc + (c.toNat - '0'.toNat)) 0

/-- JavaScript `String.prototype.trim`: strip leading and trailing
whitespace. -/
def trimString (s : String) : String :=
  ⟨((s.data.dropWhile isSpaceChar).reverse.dropWhile isSpaceChar).reverse⟩

/-- Attempt to match the regex `(\d+)\s*<kw>` (case-insensitive keyword) at
the head of `cs`: a maximal digit run, then whitespace, then the keyword.
Since digits, whitespace and the keyword's first letter are disjoint
character classes, the JavaScript regex engine's backtracking can never
produce a different match, so this direct reading is exact. -/
def matchCountAt (kw : List Char) (cs : List Char) : Option Nat :=
  match cs with
  | [] => none
  | c :: _ =>
    if c.isDigit then
      let digits := cs.takeWhile Char.isDigit
      let rest := (cs.dropWhile Char.isDigit).dropWhile isSpaceChar
      if (rest.take kw.length).map Char.toLower = kw then
        some (natOfDigits digits)
      else none
    else none

/-- Leftmost match of `(\d+)\s*<kw>` over the whole character list, as
`String.prototype.match` reports it. -/
def scanCount (kw : List Char) : List Char → Option Nat
  | [] => none
  | c :: rest =>
    match matchCountAt kw (c :: rest) with
    | some n => some n
    | none => scanCount kw rest

/-- Counts extracted from a test process's combined output. -/
structure ParsedCounts where
  pass : Nat
  fail : Nat
  skip : Nat
deriving DecidableEq, Repr

/-- Translation of `parseTestOutput`: first case-insensitive occurrences of
`(\d+)\s*pass`, `(\d+)\s*fail`, `(\d+)\s*skip`, each defaulting to 0. -/
def parseTestOutput (output : String) : ParsedCounts :=
  { pass := (scanCount "pass".data output.data).getD 0
    fail := (scanCount "fail".data output.data).getD 0
    skip := (scanCount "skip".data output.data).getD 0 }

/-- Possible fates of the spawned child process for one test file: either the
spawn itself errors, or the process exits (possibly after the timeout timer
fired).  This is the input nondeterminism of `runTestFile`. -/
inductive ProcOutcome where
  | spawnError (msg : String) (duration : Nat) (stdoutSoFar : String)
  | exited (code : Int) (timedOut : Bool) (stdout stderr : String) (duration : Nat)
deriving DecidableEq, Repr

/-- Translation of `runTestFile`'s result construction: the `close` handler
classifies a normal exit (passed iff exit code 0 and no timeout, counts
parsed from the trimmed combined output) and the `error` handler resolves a
spawn failure immediately with counts 0/1/0. -/
def runTestFile (file : String) (proc : ProcOutcome) : TestResult :=
  match proc with
  | .spawnError msg duration stdoutSoFar =>
    { file := file, passed := false, passCount := 0, failCount := 1, skipCount := 0
      duration := duration, output := stdoutSoFar, error := some msg, cached := false }
  | .exited code timedOut stdout stderr duration =>
    let combined := trimString (stdout ++ "\n" ++ stderr)
    let c := parseTestOutput combined
    { file := file
      passed := decide (code = 0) && !timedOut
      passCount := (c.pass : Int)
      failCount := (c.fail : Int)
      skipCount := (c.skip : Int)
      duration := duration
      output := combined
      error :=
        if timedOut then some "Test timed out"
        else if code ≠ 0 then some (if stderr = "" then "Exit code: " ++ toString code else stderr)
        else none
      cached := false }

/-- Translation of `calculatePercentile`: sort ascending, clamp the
percentile into `[0,1]`, index `ceil(p * n) - 1` clamped into `[0, n-1]`. -/
def calculatePercentile (values : List Nat) (percentile : ℚ) : Nat :=
  if values = [] then 0
  else
    let sorted := values.insertionSort (· ≤ ·)
    let clamped : ℚ := max 0 (min 1 percentile)
    let index : Nat := (max 0 (min ((sorted.length : Int) - 1) (⌈clamped * sorted.length⌉ - 1))).toNat
    sorted.getD index 0

/-- JSON values as `JSON.parse` can produce them.  Numbers are modelled as
integers: only the sign and type of the stored counts matter to the
properties below, never a fractional part. -/
inductive Json where
  | null
  | bool (b : Bool)
  | num (n : Int)
  | str (s : String)
  | arr (elems : List Json)
  | obj (fields : List (String × Json))

/-- Field lookup on a parsed JSON object. -/
def jsonLookup (fields : List (String × Json)) (k : String) : Option Json :=
  (fields.find? (fun p => p.1 = k)).map (fun p => p.2)

/-- One sticky-pass cache entry (`StickyPassCacheEntry`).  The counts are
arbitrary numbers at this layer: the loader accepts any value of number
type, including negative ones. -/
structure StickyPassCacheEntry where
  fingerprint : String
  passCount : Int
  skipCount : Int
  updatedAt : String
deriving DecidableEq, Repr

/-- The persisted payload (`StickyPassCachePayload`); `entries` is the
JavaScript object, modelled as an association list with unique keys. -/
structure StickyPassCachePayload where
  version : Int
  updatedAt : String
  entries : List (String × StickyPassCacheEntry)
deriving DecidableEq, Repr

/-- Lookup in an association list (JavaScript property read). -/
def lookupEntry {α : Type} (es : List (String × α)) (k : String) : Option α :=
  (es.find? (fun p => p.1 = k)).map (fun p => p.2)

/-- Property write: overwrite the existing key or append a new one. -/
def setEntry {α : Type} (k : String) (v : α) (es : List (String × α)) : List (String × α) :=
  if es.any (fun p => p.1 = k) then
    es.map (fun p => if p.1 = k then (k, v) else p)
  else es ++ [(k, v)]

/-- Property delete (`delete obj[k]`). -/
def eraseEntry {α : Type} (k : String) (es : List (String × α)) : List (String × α) :=
  es.filter (fun p => ¬p.1 = k)

/-- Current cache schema version (`STICKY_PASS_CACHE_VERSION`). -/
def STICKY_PASS_CACHE_VERSION : Int := 1

/-- Translation of `emptyStickyPassCache`. -/
def emptyStickyPassCache (now : String) : StickyPassCachePayload :=
  { version := STICKY_PASS_CACHE_VERSION, updatedAt := now, entries := [] }

/-- One entry of the raw JSON `entries` object, validated as the loader's
loop does: `fingerprint` must be a string, both counts numbers; a missing or
non-string `updatedAt` is replaced by the current timestamp. -/
def loadCacheEntry (v : Json) (now : String) : Option StickyPassCacheEntry :=
  match v with
  | .obj ef =>
    match jsonLookup ef "fingerprint", jsonLookup ef "passCount", jsonLookup ef "skipCount" with
    | some (.str fp), some (.num pc), some (.num sc) =>
      some { fingerprint := fp, passCount := pc, skipCount := sc
             updatedAt := match jsonLookup ef "updatedAt" with
                          | some (.str u) => u
                          | _ => now }
    | _, _, _ => none
  | _ => none

/-- Translation of `loadStickyPassCache`.  The `raw` argument is the parsed
cache file: `none` models a missing, unreadable or syntactically invalid
file (all of which the source maps to the empty payload). -/
def loadStickyPassCache (raw : Option Json) (now : String) : StickyPassCachePayload :=
  match raw with
  | none => emptyStickyPassCache now
  | some j =>
    match j with
    | .obj fields =>
      if (match jsonLookup fields "version" with
          | some (.num v) => decide (v = STICKY_PASS_CACHE_VERSION)
          | _ => false : Bool) then
        match jsonLookup fields "entries" with
        | some (.obj entryFields) =>
          { version := STICKY_PASS_CACHE_VERSION, updatedAt := now
            entries :=
              entryFields.foldl
                (fun acc p =>
                  match loadCacheEntry p.2 now with
                  | some e => setEntry p.1 e acc
                  | none => acc) [] }
        | _ => emptyStickyPassCache now
      else emptyStickyPassCache now
    | _ => emptyStickyPassCache now

/-- Translation of `buildStickyFingerprint`: digests
`runSalt | file | hash(contents)`, or `null` when the file cannot be read.
The digest function and the file system are abstracted as parameters
(`hash` stands for `hashToHex`, `readFile` for `fs.readFileSync` resolved
against the working directory). -/
def buildStickyFingerprint (hash : String → String) (readFile : String → Option String)
    (runSalt : String) (file : String) : Option String :=
  (readFile file).map (fun contents => hash (runSalt ++ "|" ++ file ++ "|" ++ hash contents))

/-- Translation of the `safeMaxFailures` computation in `runIsolated`:
`Number.isFinite(maxFailures || NaN)` is false when `maxFailures` is unset
or `0` (zero is falsy, so `0 || NaN` is `NaN`); a finite nonzero value is
coerced up to at least 1.  `none` stands for `Number.POSITIVE_INFINITY`. -/
def safeMaxFailures (maxFailures : Option Int) : Option Nat :=
  match maxFailures with
  | none => none
  | some m => if m = 0 then none else some (max 1 m).toNat

/-- Translation of `resolvedMaxFailures = bail ? 1 : safeMaxFailures`. -/
def resolveMaxFailures (bail : Bool) (maxFailures : Option Int) : Option Nat :=
  if bail then some 1 else safeMaxFailures maxFailures

/-- Translation of `canContinue = () => failures < maxFailures`
(`none` means an unbounded budget, where the comparison always holds). -/
def canContinue (failures : Nat) (budget : Option Nat) : Bool :=
  match budget with
  | none => true
  | some b => failures < b

/-- State of the worker-pool scheduler (`runParallel`'s local variables):
the shared FIFO queue, the files currently being executed by suspended
workers, the number of workers at the top of their loop, the shared result
list, and the shared failure counter. -/
structure PoolState where
  queue : List String
  busy : List String
  loopers : Nat
  results : List TestResult
  failures : Nat
deriving DecidableEq, Repr

/-- Scheduler events: a looping worker dequeues the head of the queue, a
suspended worker's child process for `f` completes, or a looping worker
observes that it must stop and leaves its loop. -/
inductive Choice where
  | start
  | finishF (f : String)
  | exitW
deriving DecidableEq, Repr

/-- One atomic transition of the pool.  `start` performs the loop guard
check plus `queue.shift()` (an empty-string file is falsy in JavaScript, so
the worker `break`s and executes nothing); `finishF f` appends the result
of the oracle-driven execution of `f` and bumps the failure counter on a
failed result; `exitW` retires a worker whose loop guard failed.  Guards
that do not hold leave the state unchanged (the schedule entry is then
meaningless). -/
def poolStep (exec : String → TestResult) (budget : Option Nat) (s : PoolState) :
    Choice → PoolState
  | .start =>
    match s.queue with
    | [] => s
    | f :: rest =>
      if 0 < s.loopers ∧ canContinue s.failures budget then
        if f = "" then
          { s with queue := rest, loopers := s.loopers - 1 }
        else
          { s with queue := rest, loopers := s.loopers - 1, busy := f :: s.busy }
      else s
  | .finishF f =>
    if f ∈ s.busy then
      let r := exec f
      { s with busy := s.busy.erase f
               results := s.results ++ [r]
               failures := s.failures + (if r.passed then 0 else 1)
               loopers := s.loopers + 1 }
    else s
  | .exitW =>
    if 0 < s.loopers ∧ ¬(s.queue ≠ [] ∧ canContinue s.failures budget) then
      { s with loopers := s.loopers - 1 }
    else s

/-- Run the pool under an explicit schedule of events. -/
def runPool (exec : String → TestResult) (budget : Option Nat) (s : PoolState)
    (sched : List Choice) : PoolState :=
  sched.foldl (poolStep exec budget) s

/-- Initial pool state of `runParallel`: the queue holds all files in input
order and `Math.min(concurrency, files.length)` workers are started (none
at all when the requested concurrency is zero or negative). -/
def initPool (files : List String) (concurrency : Int) : PoolState :=
  { queue := files, busy := [], loopers := (min concurrency (files.length : Int)).toNat
    results := [], failures := 0 }

/-- A pool state in which `Promise.all(workers)` has resolved: every worker
has left its loop and no execution is in flight. -/
def isFinalPool (s : PoolState) : Prop :=
  s.loopers = 0 ∧ s.busy = []

instance (s : PoolState) : Decidable (isFinalPool s) := by
  unfold isFinalPool; infer_instance

/-- Output of the sticky-cache partition loop in `runIsolated`: the
fingerprint map built along the way, the synthesized cached results, and
the files left to run. -/
structure PartitionOut where
  fpByFile : List (String × String)
  cachedResults : List TestResult
  runnableFiles : List String
deriving DecidableEq, Repr

/-- The cached `TestResult` synthesized for a sticky-cache hit: passed, zero
duration, zero failures, stored counts clamped below at 0 (`Math.max`). -/
def mkCachedResult (file : String) (e : StickyPassCacheEntry) : TestResult :=
  { file := file, passed := true, passCount := max 0 e.passCount, failCount := 0
    skipCount := max 0 e.skipCount, duration := 0, output := "sticky-pass cache hit"
    error := none, cached := true }

/-- One iteration of the partition loop: a `null` fingerprint makes the file
runnable; otherwise the fingerprint is recorded and the file is a cache hit
exactly when a stored entry carries the same fingerprint. -/
def partitionStep (fpOf : String → Option String)
    (entries : List (String × StickyPassCacheEntry)) (acc : PartitionOut) (file : String) :
    PartitionOut :=
  match fpOf file with
  | none => { acc with runnableFiles := acc.runnableFiles ++ [file] }
  | some fp =>
    let acc := { acc with fpByFile := setEntry file fp acc.fpByFile }
    match lookupEntry entries file with
    | some e =>
      if e.fingerprint = fp then
        { acc with cachedResults := acc.cachedResults ++ [mkCachedResult file e] }
      else { acc with runnableFiles := acc.runnableFiles ++ [file] }
    | none => { acc with runnableFiles := acc.runnableFiles ++ [file] }

/-- Translation of the sticky-cache partition loop of `runIsolated`
(executed only when the sticky cache is enabled). -/
def partitionSticky (fpOf : String → Option String)
    (entries : List (String × StickyPassCacheEntry)) (files : List String) : PartitionOut :=
  files.foldl (partitionStep fpOf entries) { fpByFile := [], cachedResults := [], runnableFiles := [] }

/-- One iteration of the sticky-cache commit loop of `runIsolated`: a result
whose recorded fingerprint is absent or falsy is skipped; a passed result
upserts its entry (counts clamped below at 0); a failed result deletes any
entry for its file. -/
def commitStep (fpByFile : List (String × String)) (now : String)
    (es : List (String × StickyPassCacheEntry)) (r : TestResult) :
    List (String × StickyPassCacheEntry) :=
  match lookupEntry fpByFile r.file with
  | none => es
  | some fp =>
    if fp = "" then es
    else if r.passed then
      setEntry r.file
        { fingerprint := fp, passCount := max 0 r.passCount
          skipCount := max 0 r.skipCount, updatedAt := now } es
    else eraseEntry r.file es

/-- Translation of the sticky-cache commit loop of `runIsolated`, folding
`commitStep` over the executed results. -/
def commitSticky (fpByFile : List (String × String)) (now : String)
    (entries0 : List (String × StickyPassCacheEntry)) (results : List TestResult) :
    List (String × StickyPassCacheEntry) :=
  results.foldl (commitStep fpByFile now) entries0

/-- Translation of the retry replacement loop: each retry result overwrites
the first result with the same file path, and is dropped if no such result
exists (`findIndex` returning `-1`). -/
def applyRetryReplacements (runResults retryResults : List TestResult) : List TestResult :=
  retryResults.foldl
    (fun rs retry =>
      match rs.findIdx? (fun r => r.file = retry.file) with
      | some idx => rs.set idx retry
      | none => rs)
    runResults

/-- The numeric portion of `buildTelemetrySummary` relevant to this
development.  Per-file durations are integer millisecond counts, so the
source's rounding of the percentiles to two decimals is the identity and is
omitted; `filesPerSecond` keeps its unrounded rational value. -/
structure TelemetrySummary where
  discoveredFiles : Nat
  executedFiles : Nat
  stickyHits : Nat
  passCount : Int
  failCount : Int
  skipCount : Int
  failedFiles : Nat
  durationMs : Nat
  filesPerSecond : ℚ
  p50Ms : Nat
  p95Ms : Nat
deriving DecidableEq, Repr

/-- Translation of `buildTelemetrySummary`: executed (non-cached) results
drive the percentile and throughput figures; sticky hits are the rest. -/
def buildTelemetrySummary (discoveredFiles : Nat) (results : List TestResult)
    (elapsedMs : Nat) : TelemetrySummary :=
  let executedFiles := (results.filter (fun r => !r.cached)).length
  let perFileDurations := (results.filter (fun r => !r.cached)).map (fun r => r.duration)
  { discoveredFiles := discoveredFiles
    executedFiles := executedFiles
    stickyHits := results.length - executedFiles
    passCount := (results.map (fun r => r.passCount)).sum
    failCount := (results.map (fun r => r.failCount)).sum
    skipCount := (results.map (fun r => r.skipCount)).sum
    failedFiles := (results.filter (fun r => !r.passed)).length
    durationMs := elapsedMs
    filesPerSecond := if 0 < elapsedMs then (executedFiles * 1000 : ℚ) / elapsedMs else 0
    p50Ms := calculatePercentile perFileDurations (1/2)
    p95Ms := calculatePercentile perFileDurations (19/20) }

/-- Configuration fields of `IsolatedConfig` consumed by the orchestration
core (`maxFailures = none` models the option being absent; `NaN` and
`Infinity` behave identically to absent in `safeMaxFailures`). -/
structure IsoConfig where
  parallel : Int
  retries : Nat
  bail : Bool
  maxFailures : Option Int
  stickyPassEnabled : Bool
deriving DecidableEq, Repr

/-- Environment oracles of one `runIsolated` invocation: the per-file
process outcome of the first pass and of the retry pass, the digest
function, the file reader, the precomputed run salt, the parsed persisted
cache file and the timestamp used for new cache entries. -/
structure IsoOracles where
  procOutcome1 : String → ProcOutcome
  procOutcome2 : String → ProcOutcome
  hash : String → String
  readFile : String → Option String
  runSalt : String
  cacheRaw : Option Json
  now : String

/-- Every intermediate and final value of one `runIsolated` invocation. -/
structure IsoRun where
  payload0 : StickyPassCachePayload
  part : PartitionOut
  budget : Option Nat
  pass1 : PoolState
  failedFirstPass : List TestResult
  retryHappened : Bool
  retryFiles : List String
  retryPool : PoolState
  retryResults : List TestResult
  runResults : List TestResult
  entriesAfter : List (String × StickyPassCacheEntry)
  results : List TestResult
  stoppedEarly : Bool
  totalPass : Int
  totalFail : Int
  totalSkip : Int
  filesWithFailures : Nat

/-- Translation of `runIsolated`'s orchestration: load the cache (when the
sticky cache is enabled), partition into cached results and runnable files,
drain the runnable files through the worker pool under the resolved failure
budget, retry the failed results once with an unbounded budget when retries
are configured, replace retried results in place, commit the cache, and
merge cached and executed results.  The two schedules drive the worker
interleavings of the two pool runs. -/
def runIsolated (files : List String) (cfg : IsoConfig) (or : IsoOracles)
    (sched1 sched2 : List Choice) : IsoRun :=
  let payload0 :=
    if cfg.stickyPassEnabled then loadStickyPassCache or.cacheRaw or.now
    else emptyStickyPassCache or.now
  let part :=
    if cfg.stickyPassEnabled then
      partitionSticky (buildStickyFingerprint or.hash or.readFile or.runSalt)
        payload0.entries files
    else { fpByFile := [], cachedResults := [], runnableFiles := files }
  let budget := resolveMaxFailures cfg.bail cfg.maxFailures
  let exec1 := fun f => runTestFile f (or.procOutcome1 f)
  let exec2 := fun f => runTestFile f (or.procOutcome2 f)
  let pass1 := runPool exec1 budget (initPool part.runnableFiles cfg.parallel) sched1
  let failedFirstPass := pass1.results.filter (fun r => !r.passed)
  let retryHappened := 0 < cfg.retries ∧ failedFirstPass ≠ []
  let retryFiles := failedFirstPass.map (fun r => r.file)
  let retryPool := runPool exec2 none (initPool retryFiles cfg.parallel) sched2
  let retryResults := if retryHappened then retryPool.results else []
  let runResults :=
    if retryHappened then applyRetryReplacements pass1.results retryResults
    else pass1.results
  let entriesAfter :=
    if cfg.stickyPassEnabled then commitSticky part.fpByFile or.now payload0.entries runResults
    else payload0.entries
  let results := part.cachedResults ++ runResults
  { payload0 := payload0, part := part, budget := budget, pass1 := pass1
    failedFirstPass := failedFirstPass
    retryHappened := decide retryHappened
    retryFiles := retryFiles, retryPool := retryPool, retryResults := retryResults
    runResults := runResults, entriesAfter := entriesAfter, results := results
    stoppedEarly := decide (results.length < files.length)
    totalPass := (results.map (fun r => r.passCount)).sum
    totalFail := (results.map (fun r => r.failCount)).sum
    totalSkip := (results.map (fun r => r.skipCount)).sum
    filesWithFailures := (results.filter (fun r => !r.passed)).length }

/-- Translation of the CLI exit in `main`:
`process.exit(results.failed > 0 ? 1 : 0)`, where `results.failed` is the
sum of the per-file `failCount` fields. -/
def mainExitCode (run : IsoRun) : Nat :=
  if 0 < run.totalFail then 1 else 0

/-- The cached result the partition loop produces for a file, if any: `none`
when the fingerprint is `null` or no stored entry matches it.  This is the
per-file branch condition of `partitionStep`, factored out so the loop can
be characterized pointwise. -/
def cachedResultFor (fpOf : String → Option String)
    (entries : List (String × StickyPassCacheEntry)) (f : String) : Option TestResult :=
  match fpOf f with
  | none => none
  | some fp =>
    match lookupEntry entries f with
    | some e => if e.fingerprint = fp then some (mkCachedResult f e) else none
    | none => none

/-- Accounting invariant of the pool: the input files split exactly into the
pending queue, the in-flight executions, the files of the recorded results,
and the empty-string files silently dropped by the loop's falsiness check;
every recorded result is the oracle-determined execution of its own file,
its file is never the empty string, and the failure counter counts exactly
the failed results. -/
def PoolAcc (exec : String → TestResult) (files0 : List String) (s : PoolState) : Prop :=
  (∃ k : Nat, (files0 : Multiset String) =
      ↑s.queue + ↑s.busy + ↑(s.results.map TestResult.file) + Multiset.replicate k "") ∧
  "" ∉ s.busy ∧
  (∀ r ∈ s.results, r = exec r.file ∧ r.file ≠ "") ∧
  s.failures = (s.results.filter (fun r => !r.passed)).length

/-- Stopping invariant of the pool: as long as any worker is alive the run
can proceed, and once all workers are gone, a non-empty queue can only have
been abandoned because the budget was exhausted or an empty-string file
broke a worker's loop. -/
def PoolStop (budget : Option Nat) (files0 : List String) (s : PoolState) : Prop :=
  1 ≤ s.loopers + s.busy.length ∨ s.queue = [] ∨
    canContinue s.failures budget = false ∨ "" ∈ files0

/-- Structural form of one retry replacement: overwrite the first result
whose file matches.  `applyRetryReplacements` folds this over the retry
results (shown in `applyRetryReplacements_eq_foldl_replaceFirst`). -/
def replaceFirst (rs : List TestResult) (t : TestResult) : List TestResult :=
  match rs with
  | [] => []
  | r :: rest => if r.file = t.file then t :: rest else r :: replaceFirst rest t

/-- The cache entry a single committed result leaves behind for its own key,
given what was there before. -/
def commitOutcome (fpMap : List (String × String)) (now : String) (r : TestResult)
    (prior : Option StickyPassCacheEntry) : Option StickyPassCacheEntry :=
  match lookupEntry fpMap r.file with
  | none => prior
  | some fp =>
    if fp = "" then prior
    else if r.passed then
      some { fingerprint := fp, passCount := max 0 r.passCount
             skipCount := max 0 r.skipCount, updatedAt := now }
    else none

/-! ### Concrete scenario data

Process outcomes, oracles, configurations and schedules used to evaluate the
model on specific runs. -/

/-- A child process that exits 0 reporting one passing test. -/
def passOutcome : ProcOutcome := .exited 0 false "1 pass" "" 2

/-- A child process that exits 1 reporting one failing test. -/
def failOutcome : ProcOutcome := .exited 1 false "1 fail" "" 3

/-- A child process killed by the timeout timer after producing no output:
its combined output is empty, so every parsed count is 0. -/
def timeoutOutcome : ProcOutcome := .exited 143 true "" "" 50

/-- Oracles for runs that never consult the file system or cache file. -/
def oraclesPlain : IsoOracles :=
  { procOutcome1 := fun _ => passOutcome, procOutcome2 := fun _ => passOutcome
    hash := fun s => s, readFile := fun _ => none, runSalt := "salt"
    cacheRaw := none, now := "t0" }

/-- Oracles where every first-pass execution times out with no output. -/
def oraclesTimeout : IsoOracles :=
  { oraclesPlain with procOutcome1 := fun _ => timeoutOutcome }

/-- Oracles for a flaky unit: every first-pass execution fails, every retry
passes; file contents are readable so fingerprints exist. -/
def oraclesFlaky : IsoOracles :=
  { procOutcome1 := fun _ => failOutcome, procOutcome2 := fun _ => passOutcome
    hash := fun s => s, readFile := fun f => some ("body-" ++ f), runSalt := "salt"
    cacheRaw := none, now := "t0" }

/-- Oracles where `first.test.ts` fails on the first pass and passes on
retry while every other file passes outright. -/
def oraclesOneFlaky : IsoOracles :=
  { procOutcome1 := fun f => if f = "first.test.ts" then failOutcome else passOutcome
    procOutcome2 := fun _ => passOutcome
    hash := fun s => s, readFile := fun _ => none, runSalt := "salt"
    cacheRaw := none, now := "t0" }

/-- Oracles where `a-fail.test.ts` fails and everything else passes. -/
def oraclesOneFail : IsoOracles :=
  { oraclesPlain with
    procOutcome1 := fun f => if f = "a-fail.test.ts" then failOutcome else passOutcome }

/-- A persisted cache file holding a matching entry for `p.test.ts`, and a
stale entry for `r.test.ts` whose fingerprint no longer matches. -/
def cacheRawSticky : Json :=
  .obj [("version", .num 1),
        ("entries", .obj
          [("p.test.ts", .obj [("fingerprint", .str "salt|p.test.ts|body-p.test.ts")
                               , ("passCount", .num 3), ("skipCount", .num 1)
                               , ("updatedAt", .str "t-1")]),
           ("r.test.ts", .obj [("fingerprint", .str "stale")
                               , ("passCount", .num 2), ("skipCount", .num 0)
                               , ("updatedAt", .str "t-1")])])]

/-- Oracles for the sticky-cache commit scenario: `p.test.ts` is an
unchanged cache hit, `q.test.ts` executes and passes, `r.test.ts` executes
and fails. -/
def oraclesSticky : IsoOracles :=
  { procOutcome1 := fun f => if f = "r.test.ts" then failOutcome else passOutcome
    procOutcome2 := fun _ => passOutcome
    hash := fun s => s, readFile := fun f => some ("body-" ++ f), runSalt := "salt"
    cacheRaw := some cacheRawSticky, now := "t0" }

/-- Configuration with no workers at all (`parallel = 0`). -/
def cfgNoWorkers : IsoConfig :=
  { parallel := 0, retries := 0, bail := false, maxFailures := none, stickyPassEnabled := false }

/-- Single-worker configuration without retries, budget or sticky cache. -/
def cfgPlain : IsoConfig :=
  { parallel := 1, retries := 0, bail := false, maxFailures := none, stickyPassEnabled := false }

/-- Single-worker configuration with `maxFailures = 1`. -/
def cfgMaxOne : IsoConfig :=
  { cfgPlain with maxFailures := some 1 }

/-- Single-worker configuration with one retry and the sticky cache on. -/
def cfgStickyRetry : IsoConfig :=
  { parallel := 1, retries := 1, bail := false, maxFailures := none, stickyPassEnabled := true }

/-- Single-worker configuration with one retry, no sticky cache. -/
def cfgRetry : IsoConfig :=
  { cfgPlain with retries := 1 }

/-- Single-worker configuration with the sticky cache on. -/
def cfgSticky : IsoConfig :=
  { cfgPlain with stickyPassEnabled := true }

/-- Schedule draining one file with a single worker. -/
def schedOne (f : String) : List Choice := [.start, .finishF f, .exitW]

/-- Schedule draining two files sequentially with a single worker. -/
def schedTwo (f g : String) : List Choice :=
  [.start, .finishF f, .start, .finishF g, .exitW]

/-- A fingerprint oracle returning the same fingerprint for every file. -/
def fpConst : String → Option String := fun _ => some "fp"

/-- A stored cache entry with negative counts, as the loader accepts from a
hand-edited cache file. -/
def entryNeg : StickyPassCacheEntry :=
  { fingerprint := "fp", passCount := -1, skipCount := -2, updatedAt := "t-1" }

/-! ### Association-list lemmas -/

theorem lookupEntry_nil {α : Type} (k : String) : lookupEntry ([] : List (String × α)) k = none :=
  rfl

theorem lookupEntry_cons {α : Type} (q : String × α) (es : List (String × α)) (k : String) :
    lookupEntry (q :: es) k = if q.1 = k then some q.2 else lookupEntry es k := by
  by_cases hq : q.1 = k
  · simp [lookupEntry, List.find?_cons_of_pos, hq]
  · simp [lookupEntry, List.find?_cons_of_neg, hq]

theorem lookup_setEntry_self {α : Type} (k : String) (v : α) (es : List (String × α)) :
    lookupEntry (setEntry k v es) k = some v := by
  unfold setEntry
  split
  · rename_i h
    induction es with
    | nil => simp at h
    | cons q qs ih =>
      simp only [List.any_cons, Bool.or_eq_true, decide_eq_true_eq] at h
      by_cases hq : q.1 = k
      · simp [hq, lookupEntry_cons]
      · simp only [List.map_cons, if_neg hq, lookupEntry_cons, hq, if_false]
        exact ih (h.resolve_left hq)
  · induction es with
    | nil => simp [lookupEntry_cons]
    | cons q qs ih =>
      rename_i h
      simp only [List.any_cons, Bool.or_eq_true, decide_eq_true_eq] at h
      push_neg at h
      simp only [List.cons_append, lookupEntry_cons, h.1, if_false]
      exact ih (by simpa using h.2)

theorem lookup_map_subst_other {α : Type} (k k' : String) (v : α) (es : List (String × α))
    (h : k' ≠ k) :
    lookupEntry (es.map (fun p => if p.1 = k then (k, v) else p)) k' = lookupEntry es k' := by
  induction es with
  | nil => rfl
  | cons q qs ih =>
    by_cases hq : q.1 = k
    · rw [List.map_cons, if_pos hq, lookupEntry_cons, lookupEntry_cons,
        if_neg (Ne.symm h), if_neg (by rw [hq]; exact Ne.symm h)]
      exact ih
    · rw [List.map_cons, if_neg hq, lookupEntry_cons, lookupEntry_cons]
      by_cases hq' : q.1 = k'
      · simp [hq']
      · rw [if_neg hq', if_neg hq']
        exact ih

theorem lookup_append_single_other {α : Type} (k k' : String) (v : α) (es : List (String × α))
    (h : k' ≠ k) : lookupEntry (es ++ [(k, v)]) k' = lookupEntry es k' := by
  induction es with
  | nil => simp [lookupEntry_cons, Ne.symm h, lookupEntry_nil]
  | cons q qs ih =>
    rw [List.cons_append, lookupEntry_cons, lookupEntry_cons]
    by_cases hq' : q.1 = k'
    · simp [hq']
    · rw [if_neg hq', if_neg hq']
      exact ih

theorem lookup_setEntry_other {α : Type} (k k' : String) (v : α) (es : List (String × α))
    (h : k' ≠ k) : lookupEntry (setEntry k v es) k' = lookupEntry es k' := by
  unfold setEntry
  split
  · exact lookup_map_subst_other k k' v es h
  · exact lookup_append_single_other k k' v es h

theorem lookup_eraseEntry_self {α : Type} (k : String) (es : List (String × α)) :
    lookupEntry (eraseEntry k es) k = none := by
  unfold eraseEntry
  induction es with
  | nil => rfl
  | cons q qs ih =>
    by_cases hq : q.1 = k
    · simpa [List.filter_cons, hq] using ih
    · rw [List.filter_cons, if_pos (by simpa using hq), lookupEntry_cons, if_neg hq]
      exact ih

theorem lookup_eraseEntry_other {α : Type} (k k' : String) (es : List (String × α))
    (h : k' ≠ k) : lookupEntry (eraseEntry k es) k' = lookupEntry es k' := by
  unfold eraseEntry
  induction es with
  | nil => rfl
  | cons q qs ih =>
    by_cases hq : q.1 = k
    · have hq' : ¬q.1 = k' := by rw [hq]; exact Ne.symm h
      rw [List.filter_cons, if_neg (by simpa using hq), lookupEntry_cons, if_neg hq']
      exact ih
    · rw [List.filter_cons, if_pos (by simpa using hq), lookupEntry_cons, lookupEntry_cons]
      by_cases hq' : q.1 = k'
      · simp [hq']
      · rw [if_neg hq', if_neg hq']
        exact ih

/-! ### Partition lemmas -/

theorem mkCachedResult_file (f : String) (e : StickyPassCacheEntry) :
    (mkCachedResult f e).file = f := rfl

theorem cachedResultFor_file {fpOf : String → Option String}
    {entries : List (String × StickyPassCacheEntry)} {f : String} {r : TestResult}
    (h : cachedResultFor fpOf entries f = some r) : r.file = f := by
  unfold cachedResultFor at h
  split at h
  · exact absurd h (by simp)
  · split at h
    · split at h
      · cases h; rfl
      · exact absurd h (by simp)
    · exact absurd h (by simp)

theorem cachedResultFor_eq {fpOf : String → Option String}
    {entries : List (String × StickyPassCacheEntry)} {f : String} {r : TestResult}
    (h : cachedResultFor fpOf entries f = some r) :
    ∃ e, lookupEntry entries f = some e ∧ r = mkCachedResult f e := by
  unfold cachedResultFor at h
  split at h
  · exact absurd h (by simp)
  · split at h
    · rename_i fp hfp e he
      split at h
      · cases h
        exact ⟨e, he, rfl⟩
      · exact absurd h (by simp)
    · exact absurd h (by simp)

theorem partitionStep_runnable (fpOf : String → Option String)
    (entries : List (String × StickyPassCacheEntry)) (acc : PartitionOut) (f : String) :
    (partitionStep fpOf entries acc f).runnableFiles =
      acc.runnableFiles ++ (if (cachedResultFor fpOf entries f).isNone then [f] else []) := by
  unfold partitionStep cachedResultFor
  cases fpOf f with
  | none => simp
  | some fp =>
    cases lookupEntry entries f with
    | none => simp
    | some e =>
      by_cases he : e.fingerprint = fp <;> simp [he]

theorem partitionStep_cached (fpOf : String → Option String)
    (entries : List (String × StickyPassCacheEntry)) (acc : PartitionOut) (f : String) :
    (partitionStep fpOf entries acc f).cachedResults =
      acc.cachedResults ++ (cachedResultFor fpOf entries f).toList := by
  unfold partitionStep cachedResultFor
  cases fpOf f with
  | none => simp
  | some fp =>
    cases lookupEntry entries f with
    | none => simp
    | some e =>
      by_cases he : e.fingerprint = fp <;> simp [he]

theorem partitionSticky_runnable (fpOf : String → Option String)
    (entries : List (String × StickyPassCacheEntry)) (files : List String) :
    (partitionSticky fpOf entries files).runnableFiles =
      files.filter (fun f => (cachedResultFor fpOf entries f).isNone) := by
  unfold partitionSticky
  suffices h : ∀ acc : PartitionOut,
      (files.foldl (partitionStep fpOf entries) acc).runnableFiles =
        acc.runnableFiles ++ files.filter (fun f => (cachedResultFor fpOf entries f).isNone) by
    simpa using h { fpByFile := [], cachedResults := [], runnableFiles := [] }
  induction files with
  | nil => simp
  | cons f fs ih =>
    intro acc
    rw [List.foldl_cons, ih, partitionStep_runnable, List.filter_cons]
    cases hc : cachedResultFor fpOf entries f <;> simp [hc, List.append_assoc]

theorem partitionSticky_cached (fpOf : String → Option String)
    (entries : List (String × StickyPassCacheEntry)) (files : List String) :
    (partitionSticky fpOf entries files).cachedResults =
      files.filterMap (cachedResultFor fpOf entries) := by
  unfold partitionSticky
  suffices h : ∀ acc : PartitionOut,
      (files.foldl (partitionStep fpOf entries) acc).cachedResults =
        acc.cachedResults ++ files.filterMap (cachedResultFor fpOf entries) by
    simpa using h { fpByFile := [], cachedResults := [], runnableFiles := [] }
  induction files with
  | nil => simp
  | cons f fs ih =>
    intro acc
    rw [List.foldl_cons, ih, partitionStep_cached, List.filterMap_cons]
    cases hc : cachedResultFor fpOf entries f <;> simp [hc, List.append_assoc]

theorem partitionSticky_fpByFile (fpOf : String → Option String)
    (entries : List (String × StickyPassCacheEntry)) (files : List String) (f : String)
    (hf : f ∈ files) :
    lookupEntry (partitionSticky fpOf entries files).fpByFile f = fpOf f := by
  unfold partitionSticky
  suffices h : ∀ acc : PartitionOut,
      (f ∈ files ∧ lookupEntry acc.fpByFile f = none ∨
        lookupEntry acc.fpByFile f = fpOf f) →
      lookupEntry (files.foldl (partitionStep fpOf entries) acc).fpByFile f = fpOf f by
    exact h _ (Or.inl ⟨hf, rfl⟩)
  clear hf
  induction files with
  | nil =>
    intro acc hacc
    rcases hacc with ⟨hmem, _⟩ | heq
    · exact absurd hmem (by simp)
    · simpa using heq
  | cons g gs ih =>
    intro acc hacc
    rw [List.foldl_cons]
    apply ih
    have hstep : lookupEntry (partitionStep fpOf entries acc g).fpByFile f =
        if g = f then (if (fpOf g).isSome then fpOf g else lookupEntry acc.fpByFile f)
        else lookupEntry acc.fpByFile f := by
      unfold partitionStep
      cases hfp : fpOf g with
      | none =>
        by_cases hgf : g = f <;> simp [hgf, hfp]
      | some fp =>
        have hset : ∀ es, lookupEntry (setEntry g fp es) f =
            if g = f then some fp else lookupEntry es f := by
          intro es
          by_cases hgf : g = f
          · subst hgf; simp [lookup_setEntry_self]
          · simp [hgf, lookup_setEntry_other g f fp es (fun hx => hgf hx.symm)]
        cases lookupEntry entries g with
        | none => simpa [hfp] using hset acc.fpByFile
        | some e =>
          by_cases he : e.fingerprint = fp <;> simpa [he, hfp] using hset acc.fpByFile
    rcases hacc with ⟨hmem, hnone⟩ | heq
    · rcases List.mem_cons.mp hmem with hfg | hmem'
      · subst hfg
        cases hfp : fpOf f with
        | none =>
          right; rw [hstep]; simp [hfp, hnone]
        | some fp =>
          right; rw [hstep]; simp [hfp]
      · by_cases hgf : g = f
        · subst hgf
          cases hfp : fpOf g with
          | none =>
            left
            refine ⟨hmem', ?_⟩
            rw [hstep]; simp [hfp, hnone]
          | some fp =>
            right; rw [hstep]; simp [hfp]
        · left
          refine ⟨hmem', ?_⟩
          rw [hstep]; simp [hgf, hnone]
    · right
      by_cases hgf : g = f
      · subst hgf
        cases hfp : fpOf g with
        | none => rw [hstep]; simpa [hfp] using heq
        | some fp => rw [hstep]; simp [hfp]
      · rw [hstep]; simp [hgf, heq]

theorem length_filterMap_add_length_filter_isNone {α β : Type} (g : α → Option β)
    (l : List α) :
    (l.filterMap g).length + (l.filter (fun x => (g x).isNone)).length = l.length := by
  induction l with
  | nil => rfl
  | cons x xs ih =>
    rw [List.filterMap_cons, List.filter_cons]
    cases hx : g x with
    | none => simpa [hx] using by omega
    | some y => simpa [hx] using by omega

theorem partitionSticky_length (fpOf : String → Option String)
    (entries : List (String × StickyPassCacheEntry)) (files : List String) :
    (partitionSticky fpOf entries files).cachedResults.length +
      (partitionSticky fpOf entries files).runnableFiles.length = files.length := by
  rw [partitionSticky_cached, partitionSticky_runnable]
  exact length_filterMap_add_length_filter_isNone _ _

theorem partitionSticky_cached_files (fpOf : String → Option String)
    (entries : List (String × StickyPassCacheEntry)) (files : List String) :
    (partitionSticky fpOf entries files).cachedResults.map (fun r => r.file) =
      files.filter (fun f => (cachedResultFor fpOf entries f).isSome) := by
  rw [partitionSticky_cached]
  induction files with
  | nil => rfl
  | cons f fs ih =>
    rw [List.filterMap_cons, List.filter_cons]
    cases hf : cachedResultFor fpOf entries f with
    | none => simpa [hf] using ih
    | some r =>
      have := cachedResultFor_file hf
      simp only [hf, Option.isSome_some, List.map_cons, this, if_pos]
      simpa using ih

theorem partitionSticky_disjoint (fpOf : String → Option String)
    (entries : List (String × StickyPassCacheEntry)) (files : List String) (f : String)
    (hrun : f ∈ (partitionSticky fpOf entries files).runnableFiles) :
    ∀ r ∈ (partitionSticky fpOf entries files).cachedResults, r.file ≠ f := by
  intro r hr
  rw [partitionSticky_runnable] at hrun
  rw [partitionSticky_cached] at hr
  obtain ⟨g, _, hg⟩ := List.mem_filterMap.mp hr
  have hrf : r.file = g := cachedResultFor_file hg
  have hnone : (cachedResultFor fpOf entries f).isNone := by
    have := List.mem_filter.mp hrun
    simpa using this.2
  intro hfg
  rw [hrf] at hfg
  rw [hfg] at hg
  rw [hg] at hnone
  simp at hnone

theorem partitionSticky_runnable_sublist (fpOf : String → Option String)
    (entries : List (String × StickyPassCacheEntry)) (files : List String) :
    (partitionSticky fpOf entries files).runnableFiles.Sublist files := by
  rw [partitionSticky_runnable]
  exact List.filter_sublist files

/-! ### Worker-pool invariants -/

theorem poolAcc_init (exec : String → TestResult) (files : List String) (c : Int) :
    PoolAcc exec files (initPool files c) := by
  refine ⟨⟨0, ?_⟩, by simp [initPool], by simp [initPool], by simp [initPool]⟩
  simp [initPool]

theorem poolAcc_step (exec : String → TestResult) (budget : Option Nat)
    (files0 : List String) (s : PoolState) (c : Choice)
    (hexec : ∀ f, (exec f).file = f) (h : PoolAcc exec files0 s) :
    PoolAcc exec files0 (poolStep exec budget s c) := by
  obtain ⟨q, b, lo, res, fl⟩ := s
  obtain ⟨⟨k, hacc⟩, hbusy, hres, hfail⟩ := h
  simp only [PoolAcc] at hacc hbusy hres hfail ⊢
  cases c with
  | start =>
    cases q with
    | nil => exact ⟨⟨k, hacc⟩, hbusy, hres, hfail⟩
    | cons f rest =>
      show PoolAcc exec files0
        (if 0 < lo ∧ canContinue fl budget then
          if f = "" then ⟨rest, b, lo - 1, res, fl⟩ else ⟨rest, f :: b, lo - 1, res, fl⟩
        else ⟨f :: rest, b, lo, res, fl⟩)
      by_cases hguard : 0 < lo ∧ canContinue fl budget
      · rw [if_pos hguard]
        by_cases hf : f = ""
        · rw [if_pos hf]
          refine ⟨⟨k + 1, ?_⟩, hbusy, hres, hfail⟩
          have hcons : (↑(f :: rest) : Multiset String) = {f} + ↑rest := by
            rw [Multiset.singleton_add]; rfl
          rw [hacc, hcons, hf, Multiset.replicate_add, Multiset.replicate_one]
          abel
        · rw [if_neg hf]
          refine ⟨⟨k, ?_⟩, ?_, hres, hfail⟩
          · have h1 : (↑(f :: rest) : Multiset String) = {f} + ↑rest := by
              rw [Multiset.singleton_add]; rfl
            have h2 : (↑(f :: b) : Multiset String) = {f} + ↑b := by
              rw [Multiset.singleton_add]; rfl
            rw [hacc, h1]
            simp only [PoolAcc, h2]
            abel
          · intro hmem
            rcases List.mem_cons.mp hmem with hcontr | hmem'
            · exact hf hcontr.symm
            · exact hbusy hmem'
      · rw [if_neg hguard]
        exact ⟨⟨k, hacc⟩, hbusy, hres, hfail⟩
  | finishF f =>
    show PoolAcc exec files0
      (if f ∈ b then
        ⟨q, b.erase f, lo + 1, res ++ [exec f], fl + (if (exec f).passed then 0 else 1)⟩
      else ⟨q, b, lo, res, fl⟩)
    by_cases hf : f ∈ b
    · rw [if_pos hf]
      refine ⟨⟨k, ?_⟩, ?_, ?_, ?_⟩
      · have herase : (↑b : Multiset String) = {f} + ↑(b.erase f) := by
          rw [Multiset.singleton_add, ← Multiset.coe_erase]
          exact (Multiset.cons_erase (by exact_mod_cast hf)).symm
        have hmap : (res ++ [exec f]).map TestResult.file =
            res.map TestResult.file ++ [f] := by
          rw [List.map_append]
          simp [hexec f]
        simp only [PoolAcc, hmap]
        rw [hacc, herase]
        have h3 : (↑(res.map TestResult.file ++ [f]) : Multiset String) =
            ↑(res.map TestResult.file) + ({f} : Multiset String) := by
          have : ({f} : Multiset String) = ↑([f] : List String) := rfl
          rw [this]
          exact_mod_cast rfl
        rw [h3]
        abel
      · intro hmem
        exact hbusy (List.mem_of_mem_erase hmem)
      · intro r hr
        rcases List.mem_append.mp hr with hr' | hr'
        · exact hres r hr'
        · have hrf : r = exec f := by simpa using hr'
          subst hrf
          refine ⟨by rw [hexec f], ?_⟩
          rw [hexec f]
          intro hcontr
          rw [hcontr] at hf
          exact hbusy hf
      · simp only [PoolAcc, List.filter_append, List.length_append, hfail]
        by_cases hp : (exec f).passed <;> simp [hp]
    · rw [if_neg hf]
      exact ⟨⟨k, hacc⟩, hbusy, hres, hfail⟩
  | exitW =>
    show PoolAcc exec files0
      (if 0 < lo ∧ ¬(q ≠ [] ∧ canContinue fl budget) then ⟨q, b, lo - 1, res, fl⟩
       else ⟨q, b, lo, res, fl⟩)
    by_cases hguard : 0 < lo ∧ ¬(q ≠ [] ∧ canContinue fl budget)
    · rw [if_pos hguard]
      exact ⟨⟨k, hacc⟩, hbusy, hres, hfail⟩
    · rw [if_neg hguard]
      exact ⟨⟨k, hacc⟩, hbusy, hres, hfail⟩

theorem poolStop_step (exec : String → TestResult) (budget : Option Nat)
    (files0 : List String) (s : PoolState) (c : Choice)
    (hacc : PoolAcc exec files0 s) (h : PoolStop budget files0 s) :
    PoolStop budget files0 (poolStep exec budget s c) := by
  obtain ⟨q, b, lo, res, fl⟩ := s
  obtain ⟨⟨k, heq⟩, hbusy0, hres0, hfail0⟩ := hacc
  cases c with
  | start =>
    cases q with
    | nil => exact h
    | cons f rest =>
      show PoolStop budget files0
        (if 0 < lo ∧ canContinue fl budget then
          if f = "" then ⟨rest, b, lo - 1, res, fl⟩ else ⟨rest, f :: b, lo - 1, res, fl⟩
        else ⟨f :: rest, b, lo, res, fl⟩)
      by_cases hguard : 0 < lo ∧ canContinue fl budget
      · rw [if_pos hguard]
        by_cases hf : f = ""
        · rw [if_pos hf]
          right; right; right
          have hmemq : ("" : String) ∈ (↑(f :: rest) : Multiset String) := by
            rw [← hf]
            exact_mod_cast List.mem_cons_self f rest
          have hle : (↑(f :: rest) : Multiset String) ≤ ↑files0 := by
            rw [heq]
            calc (↑(f :: rest) : Multiset String) ≤
                ↑(f :: rest) + (↑b + ↑(res.map TestResult.file) + Multiset.replicate k "") :=
                  le_add_of_nonneg_right (by simp)
            _ = ↑(f :: rest) + ↑b + ↑(res.map TestResult.file) + Multiset.replicate k "" := by
                  abel
          have hm : ("" : String) ∈ (↑files0 : Multiset String) :=
            Multiset.mem_of_le hle hmemq
          exact_mod_cast hm
        · rw [if_neg hf]
          left
          simp only [List.length_cons]
          omega
      · rw [if_neg hguard]; exact h
  | finishF f =>
    show PoolStop budget files0
      (if f ∈ b then
        ⟨q, b.erase f, lo + 1, res ++ [exec f], fl + (if (exec f).passed then 0 else 1)⟩
      else ⟨q, b, lo, res, fl⟩)
    by_cases hf : f ∈ b
    · rw [if_pos hf]
      left
      simp only [PoolStop]
      omega
    · rw [if_neg hf]; exact h
  | exitW =>
    show PoolStop budget files0
      (if 0 < lo ∧ ¬(q ≠ [] ∧ canContinue fl budget) then ⟨q, b, lo - 1, res, fl⟩
       else ⟨q, b, lo, res, fl⟩)
    by_cases hguard : 0 < lo ∧ ¬(q ≠ [] ∧ canContinue fl budget)
    · rw [if_pos hguard]
      rcases not_and_or.mp hguard.2 with hq | hc
      · right; left; exact not_not.mp (by simpa using hq)
      · right; right; left; simpa using hc
    · rw [if_neg hguard]; exact h

theorem poolAcc_run (exec : String → TestResult) (budget : Option Nat)
    (files0 : List String) (s : PoolState) (sched : List Choice)
    (hexec : ∀ f, (exec f).file = f) (h : PoolAcc exec files0 s) :
    PoolAcc exec files0 (runPool exec budget s sched) := by
  induction sched generalizing s with
  | nil => exact h
  | cons c cs ih => exact ih _ (poolAcc_step exec budget files0 s c hexec h)

theorem poolInv_run (exec : String → TestResult) (budget : Option Nat)
    (files0 : List String) (s : PoolState) (sched : List Choice)
    (hexec : ∀ f, (exec f).file = f) (hacc : PoolAcc exec files0 s)
    (hstop : PoolStop budget files0 s) :
    PoolAcc exec files0 (runPool exec budget s sched) ∧
      PoolStop budget files0 (runPool exec budget s sched) := by
  induction sched generalizing s with
  | nil => exact ⟨hacc, hstop⟩
  | cons c cs ih =>
    exact ih _ (poolAcc_step exec budget files0 s c hexec hacc)
      (poolStop_step exec budget files0 s c hacc hstop)

theorem poolAcc_results_le (exec : String → TestResult) (files0 : List String)
    (s : PoolState) (h : PoolAcc exec files0 s) :
    (↑(s.results.map TestResult.file) : Multiset String) ≤ ↑files0 := by
  obtain ⟨⟨k, hacc⟩, _, _, _⟩ := h
  rw [hacc]
  calc (↑(s.results.map TestResult.file) : Multiset String) ≤
      ↑(s.results.map TestResult.file) +
        (↑s.queue + ↑s.busy + Multiset.replicate k "") := le_add_of_nonneg_right (by simp)
  _ = ↑s.queue + ↑s.busy + ↑(s.results.map TestResult.file) + Multiset.replicate k "" := by abel

theorem poolAcc_account_of_no_empty (exec : String → TestResult) (files0 : List String)
    (s : PoolState) (h : PoolAcc exec files0 s) (hne : ("" : String) ∉ files0) :
    (files0 : Multiset String) = ↑s.queue + ↑s.busy + ↑(s.results.map TestResult.file) := by
  obtain ⟨⟨k, hacc⟩, _, _, _⟩ := h
  rcases Nat.eq_zero_or_pos k with hk | hk
  · rw [hacc, hk]
    simp
  · exfalso
    apply hne
    have hmem : ("" : String) ∈ Multiset.replicate k "" := by
      simp [Multiset.mem_replicate]
      omega
    have hle : Multiset.replicate k "" ≤ (↑files0 : Multiset String) := by
      rw [hacc]
      exact le_add_self
    have : ("" : String) ∈ (↑files0 : Multiset String) := Multiset.mem_of_le hle hmem
    exact_mod_cast this

theorem pool_final_complete (exec : String → TestResult) (files0 : List String)
    (s : PoolState) (hfin : isFinalPool s) (hacc : PoolAcc exec files0 s)
    (hstop : PoolStop none files0 s) (hne : ("" : String) ∉ files0) :
    s.queue = [] ∧ (s.results.map TestResult.file).Perm files0 := by
  obtain ⟨hlo, hbu⟩ := hfin
  have hq : s.queue = [] := by
    rcases hstop with h1 | h2 | h3 | h4
    · rw [hlo, hbu] at h1
      simp at h1
    · exact h2
    · simp [canContinue] at h3
    · exact absurd h4 hne
  have hacc' := poolAcc_account_of_no_empty exec files0 s hacc hne
  rw [hq, hbu] at hacc'
  simp only [Multiset.coe_nil, zero_add] at hacc'
  constructor
  · exact hq
  · exact Multiset.coe_eq_coe.mp (by simpa using hacc'.symm)

theorem pool_final_stopped (exec : String → TestResult) (budget : Option Nat)
    (files0 : List String) (s : PoolState) (hfin : isFinalPool s)
    (hacc : PoolAcc exec files0 s) (hstop : PoolStop budget files0 s)
    (hne : ("" : String) ∉ files0) (hlt : s.results.length < files0.length) :
    canContinue s.failures budget = false ∧ s.queue ≠ [] := by
  obtain ⟨hlo, hbu⟩ := hfin
  have hacc' := poolAcc_account_of_no_empty exec files0 s hacc hne
  have hq : s.queue ≠ [] := by
    intro hq
    rw [hq, hbu] at hacc'
    simp only [Multiset.coe_nil, zero_add] at hacc'
    have hlen : files0.length = (s.results.map TestResult.file).length := by
      have := congrArg Multiset.card hacc'
      simpa using this
    rw [List.length_map] at hlen
    omega
  refine ⟨?_, hq⟩
  rcases hstop with h1 | h2 | h3 | h4
  · rw [hlo, hbu] at h1
    simp at h1
  · exact absurd h2 hq
  · exact h3
  · exact absurd h4 hne

theorem pool_results_nodup (exec : String → TestResult) (files0 : List String)
    (s : PoolState) (h : PoolAcc exec files0 s) (hnd : files0.Nodup) :
    (s.results.map TestResult.file).Nodup := by
  have hle := poolAcc_results_le exec files0 s h
  have : (↑(s.results.map TestResult.file) : Multiset String).Nodup :=
    Multiset.nodup_of_le hle (by exact_mod_cast hnd)
  exact_mod_cast this

/-! ### Retry replacement lemmas -/

theorem findIdx_set_eq_replaceFirst (rs : List TestResult) (t : TestResult) :
    (match rs.findIdx? (fun r => r.file = t.file) with
     | some idx => rs.set idx t
     | none => rs) = replaceFirst rs t := by
  induction rs with
  | nil => rfl
  | cons r rest ih =>
    rw [List.findIdx?_cons]
    by_cases hr : r.file = t.file
    · simp [hr, replaceFirst]
    · rw [if_neg (by simpa using hr), List.findIdx?_succ]
      rw [replaceFirst, if_neg hr, ← ih]
      cases hfind : rest.findIdx? (fun r => r.file = t.file) with
      | none => simp [hfind]
      | some idx => simp [hfind]

theorem applyRetryReplacements_eq_foldl_replaceFirst (rs rr : List TestResult) :
    applyRetryReplacements rs rr = rr.foldl replaceFirst rs := by
  unfold applyRetryReplacements
  congr 1
  funext xs t
  exact findIdx_set_eq_replaceFirst xs t

theorem length_replaceFirst (rs : List TestResult) (t : TestResult) :
    (replaceFirst rs t).length = rs.length := by
  induction rs with
  | nil => rfl
  | cons r rest ih =>
    rw [replaceFirst]
    by_cases hr : r.file = t.file
    · simp [hr]
    · simp [hr, ih]

theorem map_file_replaceFirst (rs : List TestResult) (t : TestResult) :
    (replaceFirst rs t).map TestResult.file = rs.map TestResult.file := by
  induction rs with
  | nil => rfl
  | cons r rest ih =>
    rw [replaceFirst]
    by_cases hr : r.file = t.file
    · simp [hr]
    · simp [hr, ih]

theorem mem_replaceFirst (rs : List TestResult) (t x : TestResult)
    (h : x ∈ replaceFirst rs t) : x ∈ rs ∨ x = t := by
  induction rs with
  | nil => simp [replaceFirst] at h
  | cons r rest ih =>
    rw [replaceFirst] at h
    by_cases hr : r.file = t.file
    · rw [if_pos hr] at h
      rcases List.mem_cons.mp h with hx | hx
      · right; exact hx
      · left; exact List.mem_cons_of_mem r hx
    · rw [if_neg hr] at h
      rcases List.mem_cons.mp h with hx | hx
      · left; rw [hx]; exact List.mem_cons_self r rest
      · rcases ih hx with hx' | hx'
        · left; exact List.mem_cons_of_mem r hx'
        · right; exact hx'

theorem replaceFirst_of_no_match (rs : List TestResult) (t : TestResult)
    (h : ∀ r ∈ rs, r.file ≠ t.file) : replaceFirst rs t = rs := by
  induction rs with
  | nil => rfl
  | cons r rest ih =>
    rw [replaceFirst, if_neg (h r (List.mem_cons_self r rest))]
    rw [ih (fun r' hr' => h r' (List.mem_cons_of_mem r hr'))]

theorem replaceFirst_get (rs : List TestResult) (t : TestResult)
    (hnd : (rs.map TestResult.file).Nodup) (j : Nat) :
    (replaceFirst rs t).get? j =
      (rs.get? j).map (fun r => if r.file = t.file then t else r) := by
  induction rs generalizing j with
  | nil => simp [replaceFirst]
  | cons r rest ih =>
    rw [List.map_cons, List.nodup_cons] at hnd
    rw [replaceFirst]
    by_cases hr : r.file = t.file
    · rw [if_pos hr]
      cases j with
      | zero => simp [hr]
      | succ j' =>
        simp only [List.get?_cons_succ]
        have hnomatch : ∀ r' ∈ rest, r'.file ≠ t.file := by
          intro r' hr' hcontr
          apply hnd.1
          rw [hr, ← hcontr]
          exact List.mem_map_of_mem TestResult.file hr'
        cases hj : rest.get? j' with
        | none => simp
        | some r' =>
          have : r' ∈ rest := List.get?_mem hj
          simp [hnomatch r' this]
    · rw [if_neg hr]
      cases j with
      | zero => simp [hr]
      | succ j' =>
        simp only [List.get?_cons_succ]
        exact ih hnd.2 j'

theorem map_file_applyRetryReplacements (rs rr : List TestResult) :
    (applyRetryReplacements rs rr).map TestResult.file = rs.map TestResult.file := by
  rw [applyRetryReplacements_eq_foldl_replaceFirst]
  induction rr generalizing rs with
  | nil => rfl
  | cons t ts ih =>
    rw [List.foldl_cons, ih, map_file_replaceFirst]

theorem length_applyRetryReplacements (rs rr : List TestResult) :
    (applyRetryReplacements rs rr).length = rs.length := by
  have h := congrArg List.length (map_file_applyRetryReplacements rs rr)
  simpa using h

theorem mem_applyRetryReplacements (rs rr : List TestResult) (x : TestResult)
    (h : x ∈ applyRetryReplacements rs rr) : x ∈ rs ∨ x ∈ rr := by
  rw [applyRetryReplacements_eq_foldl_replaceFirst] at h
  induction rr generalizing rs with
  | nil => left; exact h
  | cons t ts ih =>
    rw [List.foldl_cons] at h
    rcases ih (replaceFirst rs t) h with hx | hx
    · rcases mem_replaceFirst rs t x hx with hx' | hx'
      · left; exact hx'
      · right; rw [hx']; exact List.mem_cons_self t ts
    · right; exact List.mem_cons_of_mem t hx

theorem applyRetryReplacements_get (rs rr : List TestResult)
    (hnd : (rs.map TestResult.file).Nodup) (hndr : (rr.map TestResult.file).Nodup) (j : Nat) :
    (applyRetryReplacements rs rr).get? j =
      (rs.get? j).map
        (fun r =>
          match rr.find? (fun t => t.file = r.file) with
          | some t => t
          | none => r) := by
  rw [applyRetryReplacements_eq_foldl_replaceFirst]
  induction rr generalizing rs with
  | nil =>
    simp [List.find?_nil]
  | cons t ts ih =>
    rw [List.map_cons, List.nodup_cons] at hndr
    rw [List.foldl_cons]
    have hnd' : ((replaceFirst rs t).map TestResult.file).Nodup := by
      rw [map_file_replaceFirst]; exact hnd
    rw [ih (replaceFirst rs t) hnd' hndr.2, replaceFirst_get rs t hnd j]
    cases hj : rs.get? j with
    | none => simp [hj]
    | some r =>
      simp only [Option.map_some']
      by_cases hr : r.file = t.file
      · rw [if_pos hr]
        have hts : ts.find? (fun s => s.file = t.file) = none := by
          rw [List.find?_eq_none]
          intro s hs
          simp only [decide_eq_true_eq]
          intro hcontr
          exact hndr.1 (hcontr ▸ List.mem_map_of_mem TestResult.file hs)
        rw [List.find?_cons_of_pos _ (by simpa using hr.symm)]
        simp [hts]
      · rw [if_neg hr]
        rw [List.find?_cons_of_neg _ (by simpa using fun h => hr h.symm)]

/-! ### Commit lemmas -/

theorem commitStep_other (fpMap : List (String × String)) (now : String)
    (es : List (String × StickyPassCacheEntry)) (r : TestResult) (f : String)
    (h : r.file ≠ f) :
    lookupEntry (commitStep fpMap now es r) f = lookupEntry es f := by
  unfold commitStep
  split
  · rfl
  · rename_i fp heq
    by_cases hfp : fp = ""
    · simp [hfp]
    · rw [if_neg hfp]
      by_cases hp : r.passed
      · rw [if_pos hp]
        exact lookup_setEntry_other r.file f _ es (Ne.symm h)
      · rw [if_neg hp]
        exact lookup_eraseEntry_other r.file f es (Ne.symm h)

theorem commitStep_self (fpMap : List (String × String)) (now : String)
    (es : List (String × StickyPassCacheEntry)) (r : TestResult) :
    lookupEntry (commitStep fpMap now es r) r.file =
      commitOutcome fpMap now r (lookupEntry es r.file) := by
  cases heq : lookupEntry fpMap r.file with
  | none =>
    unfold commitStep commitOutcome
    rw [heq]
  | some fp =>
    unfold commitStep commitOutcome
    rw [heq]
    show lookupEntry
        (if fp = "" then es
         else if r.passed then
           setEntry r.file
             { fingerprint := fp, passCount := max 0 r.passCount
               skipCount := max 0 r.skipCount, updatedAt := now } es
         else eraseEntry r.file es) r.file =
      (if fp = "" then lookupEntry es r.file
       else if r.passed then
         some { fingerprint := fp, passCount := max 0 r.passCount
                skipCount := max 0 r.skipCount, updatedAt := now }
       else none)
    by_cases hfp : fp = ""
    · simp [hfp]
    · rw [if_neg hfp, if_neg hfp]
      by_cases hp : r.passed
      · rw [if_pos hp, if_pos hp]
        exact lookup_setEntry_self r.file _ es
      · rw [if_neg hp, if_neg hp]
        exact lookup_eraseEntry_self r.file es

theorem commitSticky_cons (fpMap : List (String × String)) (now : String)
    (es : List (String × StickyPassCacheEntry)) (r : TestResult) (rest : List TestResult) :
    commitSticky fpMap now es (r :: rest) =
      commitSticky fpMap now (commitStep fpMap now es r) rest := rfl

theorem commitSticky_untouched (fpMap : List (String × String)) (now : String)
    (results : List TestResult) (es : List (String × StickyPassCacheEntry)) (f : String)
    (h : f ∉ results.map TestResult.file) :
    lookupEntry (commitSticky fpMap now es results) f = lookupEntry es f := by
  induction results generalizing es with
  | nil => rfl
  | cons r rest ih =>
    rw [List.map_cons] at h
    have hne : r.file ≠ f := fun hc => h (List.mem_cons.mpr (Or.inl hc.symm))
    have hrest : f ∉ rest.map TestResult.file := fun hc => h (List.mem_cons.mpr (Or.inr hc))
    rw [commitSticky_cons, ih _ hrest]
    exact commitStep_other fpMap now es r f hne

theorem commitSticky_lookup (fpMap : List (String × String)) (now : String)
    (results : List TestResult) (es : List (String × StickyPassCacheEntry)) (r : TestResult)
    (hnd : (results.map TestResult.file).Nodup) (hr : r ∈ results) :
    lookupEntry (commitSticky fpMap now es results) r.file =
      commitOutcome fpMap now r (lookupEntry es r.file) := by
  induction results generalizing es with
  | nil => simp at hr
  | cons q rest ih =>
    rw [List.map_cons, List.nodup_cons] at hnd
    rcases List.mem_cons.mp hr with hq | hq
    · subst hq
      rw [commitSticky_cons]
      rw [commitSticky_untouched fpMap now rest _ r.file hnd.1]
      exact commitStep_self fpMap now es r
    · have hne : q.file ≠ r.file := by
        intro hc
        exact hnd.1 (hc ▸ List.mem_map_of_mem TestResult.file hq)
      rw [commitSticky_cons, ih _ hnd.2 hq, commitStep_other fpMap now es q r.file hne]

/-! ### Fingerprint lemmas -/

theorem string_data_eq {s t : String} (h : s.data = t.data) : s = t := by
  cases s; cases t; exact congrArg String.mk h

theorem string_append_inj {a b c d : String} (h : a ++ b = c ++ d)
    (hl : a.length = c.length) : a = c ∧ b = d := by
  have hdata : a.data ++ b.data = c.data ++ d.data := by
    rw [← String.data_append, ← String.data_append, h]
  have := List.append_inj hdata hl
  exact ⟨string_data_eq this.1, string_data_eq this.2⟩

/-- Decomposition of the fingerprint preimage `salt | file | digest`: two
preimages over the same file and equal-length salts agree componentwise. -/
theorem fingerprint_preimage_inj (salt salt' file digest digest' : String)
    (hl : salt.length = salt'.length)
    (h : salt ++ "|" ++ file ++ "|" ++ digest = salt' ++ "|" ++ file ++ "|" ++ digest') :
    salt = salt' ∧ digest = digest' := by
  have h' : salt ++ ("|" ++ file ++ "|" ++ digest) = salt' ++ ("|" ++ file ++ "|" ++ digest') := by
    rw [← String.append_assoc, ← String.append_assoc, ← String.append_assoc,
      ← String.append_assoc, ← String.append_assoc, ← String.append_assoc]
    exact h
  obtain ⟨h1, h2⟩ := string_append_inj h' hl
  refine ⟨h1, ?_⟩
  have h3 : ("|" ++ file ++ "|") ++ digest = ("|" ++ file ++ "|") ++ digest' := by
    rw [String.append_assoc, String.append_assoc] at h2 ⊢
    rw [← String.append_assoc, ← String.append_assoc] at h2 ⊢
    exact h2
  exact (string_append_inj h3 rfl).2

theorem buildStickyFingerprint_eq_some {hash : String → String}
    {readFile : String → Option String} {runSalt file fp : String}
    (h : buildStickyFingerprint hash readFile runSalt file = some fp) :
    ∃ contents, readFile file = some contents ∧
      fp = hash (runSalt ++ "|" ++ file ++ "|" ++ hash contents) := by
  unfold buildStickyFingerprint at h
  cases hrf : readFile file with
  | none => rw [hrf] at h; exact absurd h (by simp)
  | some contents =>
    rw [hrf] at h
    simp only [Option.map_some'] at h
    exact ⟨contents, rfl, (Option.some.injEq _ _ ▸ h).symm⟩

/-! ### Percentile characterization -/

theorem calculatePercentile_spec (values : List Nat) (p : ℚ) (sortedL : List Nat)
    (hne : values ≠ []) (h0 : 0 ≤ p) (h1 : p ≤ 1)
    (hperm : sortedL.Perm values) (hsorted : sortedL.Sorted (· ≤ ·)) :
    calculatePercentile values p =
      sortedL.getD
        ((max 0 (min ((values.length : Int) - 1) (⌈p * values.length⌉ - 1))).toNat) 0 := by
  unfold calculatePercentile
  rw [if_neg hne]
  have hsort_eq : values.insertionSort (· ≤ ·) = sortedL := by
    apply List.eq_of_perm_of_sorted _ (List.sorted_insertionSort (· ≤ ·) values) hsorted
    exact (List.perm_insertionSort (· ≤ ·) values).trans hperm.symm
  have hclamp : max 0 (min 1 p) = p := by
    rw [min_eq_right h1, max_eq_right h0]
  rw [hsort_eq, hclamp]
  have hlen : sortedL.length = values.length := hperm.length_eq
  simp only [hlen]

/-! ### Basic facts about executed results -/

theorem runTestFile_file (f : String) (p : ProcOutcome) : (runTestFile f p).file = f := by
  cases p <;> rfl

theorem runTestFile_cached (f : String) (p : ProcOutcome) : (runTestFile f p).cached = false := by
  cases p <;> rfl

theorem runTestFile_counts_nonneg (f : String) (p : ProcOutcome) :
    0 ≤ (runTestFile f p).passCount ∧ 0 ≤ (runTestFile f p).failCount ∧
      0 ≤ (runTestFile f p).skipCount := by
  cases p with
  | spawnError msg d so => exact ⟨le_refl 0, by norm_num [runTestFile], le_refl 0⟩
  | exited code t so se d =>
    refine ⟨?_, ?_, ?_⟩ <;> simp [runTestFile]

/-! ### Component equations of `runIsolated` -/

theorem runIsolated_payload0 (files : List String) (cfg : IsoConfig) (or : IsoOracles)
    (s1 s2 : List Choice) :
    (runIsolated files cfg or s1 s2).payload0 =
      (if cfg.stickyPassEnabled then loadStickyPassCache or.cacheRaw or.now
       else emptyStickyPassCache or.now) := rfl

theorem runIsolated_part (files : List String) (cfg : IsoConfig) (or : IsoOracles)
    (s1 s2 : List Choice) :
    (runIsolated files cfg or s1 s2).part =
      (if cfg.stickyPassEnabled then
        partitionSticky (buildStickyFingerprint or.hash or.readFile or.runSalt)
          (runIsolated files cfg or s1 s2).payload0.entries files
      else { fpByFile := [], cachedResults := [], runnableFiles := files }) := rfl

theorem runIsolated_budget (files : List String) (cfg : IsoConfig) (or : IsoOracles)
    (s1 s2 : List Choice) :
    (runIsolated files cfg or s1 s2).budget = resolveMaxFailures cfg.bail cfg.maxFailures := rfl

theorem runIsolated_pass1 (files : List String) (cfg : IsoConfig) (or : IsoOracles)
    (s1 s2 : List Choice) :
    (runIsolated files cfg or s1 s2).pass1 =
      runPool (fun f => runTestFile f (or.procOutcome1 f))
        (resolveMaxFailures cfg.bail cfg.maxFailures)
        (initPool (runIsolated files cfg or s1 s2).part.runnableFiles cfg.parallel) s1 := rfl

theorem runIsolated_failedFirstPass (files : List String) (cfg : IsoConfig) (or : IsoOracles)
    (s1 s2 : List Choice) :
    (runIsolated files cfg or s1 s2).failedFirstPass =
      (runIsolated files cfg or s1 s2).pass1.results.filter (fun r => !r.passed) := rfl

theorem runIsolated_retryFiles (files : List String) (cfg : IsoConfig) (or : IsoOracles)
    (s1 s2 : List Choice) :
    (runIsolated files cfg or s1 s2).retryFiles =
      (runIsolated files cfg or s1 s2).failedFirstPass.map (fun r => r.file) := rfl

theorem runIsolated_retryPool (files : List String) (cfg : IsoConfig) (or : IsoOracles)
    (s1 s2 : List Choice) :
    (runIsolated files cfg or s1 s2).retryPool =
      runPool (fun f => runTestFile f (or.procOutcome2 f)) none
        (initPool (runIsolated files cfg or s1 s2).retryFiles cfg.parallel) s2 := rfl

theorem runIsolated_retryResults (files : List String) (cfg : IsoConfig) (or : IsoOracles)
    (s1 s2 : List Choice) :
    (runIsolated files cfg or s1 s2).retryResults =
      (if 0 < cfg.retries ∧ (runIsolated files cfg or s1 s2).failedFirstPass ≠ [] then
        (runIsolated files cfg or s1 s2).retryPool.results
      else []) := rfl

theorem runIsolated_runResults (files : List String) (cfg : IsoConfig) (or : IsoOracles)
    (s1 s2 : List Choice) :
    (runIsolated files cfg or s1 s2).runResults =
      (if 0 < cfg.retries ∧ (runIsolated files cfg or s1 s2).failedFirstPass ≠ [] then
        applyRetryReplacements (runIsolated files cfg or s1 s2).pass1.results
          (runIsolated files cfg or s1 s2).retryResults
      else (runIsolated files cfg or s1 s2).pass1.results) := rfl

theorem runIsolated_entriesAfter (files : List String) (cfg : IsoConfig) (or : IsoOracles)
    (s1 s2 : List Choice) :
    (runIsolated files cfg or s1 s2).entriesAfter =
      (if cfg.stickyPassEnabled then
        commitSticky (runIsolated files cfg or s1 s2).part.fpByFile or.now
          (runIsolated files cfg or s1 s2).payload0.entries
          (runIsolated files cfg or s1 s2).runResults
      else (runIsolated files cfg or s1 s2).payload0.entries) := rfl

theorem runIsolated_results (files : List String) (cfg : IsoConfig) (or : IsoOracles)
    (s1 s2 : List Choice) :
    (runIsolated files cfg or s1 s2).results =
      (runIsolated files cfg or s1 s2).part.cachedResults ++
        (runIsolated files cfg or s1 s2).runResults := rfl

theorem runIsolated_stoppedEarly (files : List String) (cfg : IsoConfig) (or : IsoOracles)
    (s1 s2 : List Choice) :
    (runIsolated files cfg or s1 s2).stoppedEarly =
      decide ((runIsolated files cfg or s1 s2).results.length < files.length) := rfl

theorem runIsolated_totalFail (files : List String) (cfg : IsoConfig) (or : IsoOracles)
    (s1 s2 : List Choice) :
    (runIsolated files cfg or s1 s2).totalFail =
      ((runIsolated files cfg or s1 s2).results.map (fun r => r.failCount)).sum := rfl

/-! ### Pipeline-level helper lemmas -/

theorem runIsolated_runnable_sublist (files : List String) (cfg : IsoConfig) (or : IsoOracles)
    (s1 s2 : List Choice) :
    (runIsolated files cfg or s1 s2).part.runnableFiles.Sublist files := by
  rw [runIsolated_part]
  by_cases hs : cfg.stickyPassEnabled
  · rw [if_pos hs]
    exact partitionSticky_runnable_sublist _ _ files
  · rw [if_neg hs]

theorem runIsolated_partition_length (files : List String) (cfg : IsoConfig) (or : IsoOracles)
    (s1 s2 : List Choice) :
    (runIsolated files cfg or s1 s2).part.cachedResults.length +
      (runIsolated files cfg or s1 s2).part.runnableFiles.length = files.length := by
  rw [runIsolated_part]
  by_cases hs : cfg.stickyPassEnabled
  · rw [if_pos hs]
    exact partitionSticky_length _ _ files
  · rw [if_neg hs]
    simp

theorem runIsolated_runResults_files (files : List String) (cfg : IsoConfig) (or : IsoOracles)
    (s1 s2 : List Choice) :
    (runIsolated files cfg or s1 s2).runResults.map TestResult.file =
      (runIsolated files cfg or s1 s2).pass1.results.map TestResult.file := by
  rw [runIsolated_runResults]
  split
  · exact map_file_applyRetryReplacements _ _
  · rfl

theorem runIsolated_runResults_length (files : List String) (cfg : IsoConfig) (or : IsoOracles)
    (s1 s2 : List Choice) :
    (runIsolated files cfg or s1 s2).runResults.length =
      (runIsolated files cfg or s1 s2).pass1.results.length := by
  have h := congrArg List.length (runIsolated_runResults_files files cfg or s1 s2)
  simpa using h

theorem runIsolated_runResults_mem (files : List String) (cfg : IsoConfig) (or : IsoOracles)
    (s1 s2 : List Choice) (r : TestResult)
    (hr : r ∈ (runIsolated files cfg or s1 s2).runResults) :
    r ∈ (runIsolated files cfg or s1 s2).pass1.results ∨
      r ∈ (runIsolated files cfg or s1 s2).retryResults := by
  rw [runIsolated_runResults] at hr
  by_cases hc : 0 < cfg.retries ∧ (runIsolated files cfg or s1 s2).failedFirstPass ≠ []
  · rw [if_pos hc] at hr
    exact mem_applyRetryReplacements _ _ r hr
  · rw [if_neg hc] at hr
    left; exact hr

theorem runIsolated_pass1_acc (files : List String) (cfg : IsoConfig) (or : IsoOracles)
    (s1 s2 : List Choice) :
    PoolAcc (fun f => runTestFile f (or.procOutcome1 f))
      (runIsolated files cfg or s1 s2).part.runnableFiles
      (runIsolated files cfg or s1 s2).pass1 := by
  rw [runIsolated_pass1]
  exact poolAcc_run _ _ _ _ s1 (fun f => runTestFile_file f _) (poolAcc_init _ _ cfg.parallel)

theorem runIsolated_retry_acc (files : List String) (cfg : IsoConfig) (or : IsoOracles)
    (s1 s2 : List Choice) :
    PoolAcc (fun f => runTestFile f (or.procOutcome2 f))
      (runIsolated files cfg or s1 s2).retryFiles
      (runIsolated files cfg or s1 s2).retryPool := by
  rw [runIsolated_retryPool]
  exact poolAcc_run _ _ _ _ s2 (fun f => runTestFile_file f _) (poolAcc_init _ _ cfg.parallel)

theorem initPool_loopers_pos (files : List String) (c : Int) (hc : 1 ≤ c)
    (hne : files ≠ []) : 1 ≤ (initPool files c).loopers := by
  have hlen : 1 ≤ files.length := List.length_pos.mpr hne
  have h1 : (1 : Int) ≤ min c (files.length : Int) := by
    apply le_min hc
    exact_mod_cast hlen
  show 1 ≤ (min c (files.length : Int)).toNat
  calc 1 = ((1 : Int)).toNat := rfl
  _ ≤ (min c (files.length : Int)).toNat := Int.toNat_le_toNat h1

theorem poolStop_init (budget : Option Nat) (files : List String) (c : Int)
    (h : files = [] ∨ 1 ≤ c) : PoolStop budget files (initPool files c) := by
  rcases h with hf | hc
  · right; left
    simp [initPool, hf]
  · by_cases hf : files = []
    · right; left
      simp [initPool, hf]
    · left
      have := initPool_loopers_pos files c hc hf
      simp only [initPool] at this ⊢
      omega

/-- Every executed result of a run (first pass or retry) is the
oracle-determined execution of its own file. -/
theorem runIsolated_runResults_exec (files : List String) (cfg : IsoConfig) (or : IsoOracles)
    (s1 s2 : List Choice) (r : TestResult)
    (hr : r ∈ (runIsolated files cfg or s1 s2).runResults) :
    r = runTestFile r.file (or.procOutcome1 r.file) ∨
      r = runTestFile r.file (or.procOutcome2 r.file) := by
  rcases runIsolated_runResults_mem files cfg or s1 s2 r hr with h | h
  · left
    have hacc := runIsolated_pass1_acc files cfg or s1 s2
    exact (hacc.2.2.1 r h).1
  · right
    rw [runIsolated_retryResults] at h
    by_cases hc : 0 < cfg.retries ∧ (runIsolated files cfg or s1 s2).failedFirstPass ≠ []
    · rw [if_pos hc] at h
      have hacc := runIsolated_retry_acc files cfg or s1 s2
      exact (hacc.2.2.1 r h).1
    · rw [if_neg hc] at h
      simp at h

theorem poolStep_fixed (exec : String → TestResult) (budget : Option Nat) (s : PoolState)
    (hlo : s.loopers = 0) (hbu : s.busy = []) (ch : Choice) :
    poolStep exec budget s ch = s := by
  obtain ⟨q, b, lo, res, fl⟩ := s
  simp only [] at hlo hbu
  subst hlo; subst hbu
  cases ch with
  | start =>
    cases q with
    | nil => rfl
    | cons f rest =>
      show (if 0 < 0 ∧ canContinue fl budget then
          if f = "" then ⟨rest, [], 0 - 1, res, fl⟩
          else ⟨rest, f :: [], 0 - 1, res, fl⟩
        else ⟨f :: rest, [], 0, res, fl⟩) = (⟨f :: rest, [], 0, res, fl⟩ : PoolState)
      rw [if_neg (by simp)]
  | finishF f =>
    show (if f ∈ ([] : List String) then
        ⟨q, List.erase [] f, 0 + 1, res ++ [exec f],
          fl + (if (exec f).passed then 0 else 1)⟩
      else ⟨q, [], 0, res, fl⟩) = (⟨q, [], 0, res, fl⟩ : PoolState)
    rw [if_neg (by simp)]
  | exitW =>
    show (if 0 < 0 ∧ ¬(q ≠ [] ∧ canContinue fl budget) then ⟨q, [], 0 - 1, res, fl⟩
      else ⟨q, [], 0, res, fl⟩) = (⟨q, [], 0, res, fl⟩ : PoolState)
    rw [if_neg (by simp)]

theorem runPool_fixed (exec : String → TestResult) (budget : Option Nat) (s : PoolState)
    (hlo : s.loopers = 0) (hbu : s.busy = []) (sched : List Choice) :
    runPool exec budget s sched = s := by
  induction sched with
  | nil => rfl
  | cons ch cs ih =>
    unfold runPool at ih ⊢
    rw [List.foldl_cons, poolStep_fixed exec budget s hlo hbu ch]
    exact ih

/-! ### Claim C1 — failure-budget resolution -/

/-- C1 counterexample: with `bail = false` and `maxFailures = 0` (a finite
value), the effective budget is unbounded (`none`), not `some 1` as the
claim states: `maxFailures || NaN` evaluates to `NaN` because `0` is falsy,
so `Number.isFinite` rejects it. -/
theorem c1_counterexample :
    resolveMaxFailures false (some 0) = none ∧
      resolveMaxFailures false (some 0) ≠ some 1 := by
  decide

/-- C1 (amended): the budget `runIsolated` passes to the worker pool is
`resolveMaxFailures bail maxFailures`; `bail = true` forces budget 1;
a finite nonzero `maxFailures = m` gives `max 1 m` (so at least 1); an
unset `maxFailures` gives an unbounded budget; and `maxFailures = 0` is
treated like unset (unbounded), because `0` is falsy in `maxFailures || NaN`. -/
theorem c1_budget_resolution (files : List String) (cfg : IsoConfig) (or : IsoOracles)
    (s1 s2 : List Choice) (m : Int) (hm : m ≠ 0) :
    (runIsolated files cfg or s1 s2).budget = resolveMaxFailures cfg.bail cfg.maxFailures ∧
    resolveMaxFailures true cfg.maxFailures = some 1 ∧
    resolveMaxFailures false (some m) = some (max 1 m).toNat ∧
    1 ≤ (max 1 m).toNat ∧
    resolveMaxFailures false none = none ∧
    resolveMaxFailures false (some 0) = none := by
  refine ⟨rfl, rfl, ?_, ?_, rfl, rfl⟩
  · simp [resolveMaxFailures, safeMaxFailures, hm]
  · have h1 : (1 : Int) ≤ max 1 m := le_max_left 1 m
    calc 1 = ((1 : Int)).toNat := rfl
    _ ≤ (max 1 m).toNat := Int.toNat_le_toNat h1

/-- C1 witness: the amended budget resolution evaluated at
`maxFailures = 5` and at `maxFailures` unset. -/
theorem c1_budget_resolution_witness :
    resolveMaxFailures false (some 5) = some ((max 1 (5 : Int)).toNat) ∧
      resolveMaxFailures false none = none :=
  ⟨(c1_budget_resolution [] cfgPlain oraclesPlain [] [] 5 (by decide)).2.2.1,
   (c1_budget_resolution [] cfgPlain oraclesPlain [] [] 5 (by decide)).2.2.2.2.1⟩

/-! ### Claim C2 — worker-count floor -/

/-- C2 counterexample: `runParallel` starts `Math.min(concurrency, files)`
workers with no floor: at `concurrency = 0` over one file, zero worker
loops start, and the file is never executed even under an unbounded
budget — `runIsolated` then returns no results at all. -/
theorem c2_counterexample :
    (initPool ["a"] 0).loopers = 0 ∧
    ¬1 ≤ (initPool ["a"] 0).loopers ∧
    (runPool (fun f => runTestFile f passOutcome) none (initPool ["a"] 0)
      (schedOne "a")).results = [] ∧
    (runIsolated ["a.test.ts"] cfgNoWorkers oraclesPlain [] []).results = [] := by
  decide

/-- C2 (amended): the number of worker loops started is
`min(concurrency, len(files))` clamped below at 0.  When `concurrency ≥ 1`
and the file list is non-empty at least one worker starts, and under an
unbounded budget every file (no empty-string paths) is eventually executed
in any completed interleaving; when `concurrency ≤ 0`, no worker starts and
the pool never changes state, so nothing runs. -/
theorem c2_worker_floor :
    (∀ (files : List String) (c : Int), 1 ≤ c → files ≠ [] →
      1 ≤ (initPool files c).loopers) ∧
    (∀ (exec : String → TestResult) (files : List String) (c : Int) (sched : List Choice),
      (∀ f, (exec f).file = f) → 1 ≤ c → ("" : String) ∉ files →
      isFinalPool (runPool exec none (initPool files c) sched) →
      ((runPool exec none (initPool files c) sched).results.map TestResult.file).Perm files) ∧
    (∀ (exec : String → TestResult) (budget : Option Nat) (files : List String)
      (c : Int) (sched : List Choice), c ≤ 0 →
      runPool exec budget (initPool files c) sched = initPool files c) := by
  refine ⟨?_, ?_, ?_⟩
  · intro files c hc hne
    exact initPool_loopers_pos files c hc hne
  · intro exec files c sched hexec hc hne hfin
    have hinv := poolInv_run exec none files (initPool files c) sched hexec
      (poolAcc_init exec files c) (poolStop_init none files c (Or.inr hc))
    exact (pool_final_complete exec files _ hfin hinv.1 hinv.2 hne).2
  · intro exec budget files c sched hc
    have hlo : (initPool files c).loopers = 0 := by
      show (min c (files.length : Int)).toNat = 0
      have hmin : min c (files.length : Int) ≤ 0 := le_trans (min_le_left _ _) hc
      simpa using Int.toNat_of_nonpos hmin
    exact runPool_fixed exec budget (initPool files c) hlo rfl sched

/-- C2 witness: the floor and completeness at `concurrency = 1` over one
file, and the no-worker fixpoint at `concurrency = 0`. -/
theorem c2_worker_floor_witness :
    1 ≤ (initPool ["a"] 1).loopers ∧
    ((runPool (fun f => runTestFile f passOutcome) none (initPool ["a"] 1)
      (schedOne "a")).results.map TestResult.file).Perm ["a"] ∧
    runPool (fun f => runTestFile f passOutcome) none (initPool ["a"] 0) [] =
      initPool ["a"] 0 :=
  ⟨c2_worker_floor.1 ["a"] 1 (by decide) (by decide),
   c2_worker_floor.2.1 (fun f => runTestFile f passOutcome) ["a"] 1 (schedOne "a")
     (fun f => runTestFile_file f passOutcome) (by decide) (by decide) (by decide),
   c2_worker_floor.2.2 (fun f => runTestFile f passOutcome) none ["a"] 0 [] (by decide)⟩

/-! ### Claim C3 — early stop iff missing results -/

/-- C3 counterexample: two completed runs whose `stoppedEarly` flag is true
even though the failure counter (0) never reached the effective budget
(unbounded): one with `parallel = 0` (no worker ever starts), and one whose
single unit path is the empty string (the worker loop drops it by the
falsiness check without executing it). -/
theorem c3_counterexample :
    ((runIsolated ["a.test.ts"] cfgNoWorkers oraclesPlain [] []).stoppedEarly = true ∧
     isFinalPool (runIsolated ["a.test.ts"] cfgNoWorkers oraclesPlain [] []).pass1 ∧
     canContinue (runIsolated ["a.test.ts"] cfgNoWorkers oraclesPlain [] []).pass1.failures
       (runIsolated ["a.test.ts"] cfgNoWorkers oraclesPlain [] []).budget = true) ∧
    ((runIsolated [""] cfgPlain oraclesPlain [.start, .exitW] []).stoppedEarly = true ∧
     isFinalPool (runIsolated [""] cfgPlain oraclesPlain [.start, .exitW] []).pass1 ∧
     canContinue (runIsolated [""] cfgPlain oraclesPlain [.start, .exitW] []).pass1.failures
       (runIsolated [""] cfgPlain oraclesPlain [.start, .exitW] []).budget = true) := by
  decide

/-- C3 (amended): for every completed run with at least one worker
(`parallel ≥ 1`) and no empty-string unit path, `stoppedEarly` is true iff
fewer results than input units exist, and whenever it is true the failure
counter reached the effective budget (`canContinue` is false) while
runnable units were still queued. -/
theorem c3_stopped_early (files : List String) (cfg : IsoConfig) (or : IsoOracles)
    (s1 s2 : List Choice) (hp : 1 ≤ cfg.parallel) (hne : ("" : String) ∉ files)
    (hfin : isFinalPool (runIsolated files cfg or s1 s2).pass1) :
    ((runIsolated files cfg or s1 s2).stoppedEarly = true ↔
      (runIsolated files cfg or s1 s2).results.length < files.length) ∧
    ((runIsolated files cfg or s1 s2).stoppedEarly = true →
      canContinue (runIsolated files cfg or s1 s2).pass1.failures
        (runIsolated files cfg or s1 s2).budget = false ∧
      (runIsolated files cfg or s1 s2).pass1.queue ≠ []) := by
  have hiff : (runIsolated files cfg or s1 s2).stoppedEarly = true ↔
      (runIsolated files cfg or s1 s2).results.length < files.length := by
    rw [runIsolated_stoppedEarly]
    exact decide_eq_true_iff
  refine ⟨hiff, ?_⟩
  intro hstop
  have hlt := hiff.mp hstop
  have hlen : (runIsolated files cfg or s1 s2).results.length =
      (runIsolated files cfg or s1 s2).part.cachedResults.length +
        (runIsolated files cfg or s1 s2).pass1.results.length := by
    rw [runIsolated_results, List.length_append, runIsolated_runResults_length]
  have hpart := runIsolated_partition_length files cfg or s1 s2
  have hlt' : (runIsolated files cfg or s1 s2).pass1.results.length <
      (runIsolated files cfg or s1 s2).part.runnableFiles.length := by omega
  have hne' : ("" : String) ∉ (runIsolated files cfg or s1 s2).part.runnableFiles :=
    fun hmem => hne ((runIsolated_runnable_sublist files cfg or s1 s2).subset hmem)
  have hacc := runIsolated_pass1_acc files cfg or s1 s2
  have hstop' : PoolStop (runIsolated files cfg or s1 s2).budget
      (runIsolated files cfg or s1 s2).part.runnableFiles
      (runIsolated files cfg or s1 s2).pass1 := by
    rw [runIsolated_pass1, runIsolated_budget]
    exact (poolInv_run _ _ _ _ s1 (fun f => runTestFile_file f _)
      (poolAcc_init _ _ cfg.parallel)
      (poolStop_init _ _ cfg.parallel (Or.inr hp))).2
  exact pool_final_stopped _ (runIsolated files cfg or s1 s2).budget
    (runIsolated files cfg or s1 s2).part.runnableFiles
    (runIsolated files cfg or s1 s2).pass1 hfin hacc hstop' hne' hlt'

/-- C3 witness: the repository's own stop-early scenario — a failing then a
passing unit under `maxFailures = 1` with one worker — reaches the budget
with the passing unit still queued. -/
theorem c3_stopped_early_witness :
    canContinue
      (runIsolated ["a-fail.test.ts", "b-pass.test.ts"] cfgMaxOne oraclesOneFail
        (schedOne "a-fail.test.ts") []).pass1.failures
      (runIsolated ["a-fail.test.ts", "b-pass.test.ts"] cfgMaxOne oraclesOneFail
        (schedOne "a-fail.test.ts") []).budget = false ∧
    (runIsolated ["a-fail.test.ts", "b-pass.test.ts"] cfgMaxOne oraclesOneFail
      (schedOne "a-fail.test.ts") []).pass1.queue ≠ [] :=
  (c3_stopped_early ["a-fail.test.ts", "b-pass.test.ts"] cfgMaxOne oraclesOneFail
    (schedOne "a-fail.test.ts") [] (by decide) (by decide) (by decide)).2 (by decide)

/-! ### Claim C4 — percentile computation -/

/-- C4: for a non-empty duration list and percentile `p ∈ [0,1]`, the
reported percentile is the element of the ascending-sorted list at index
`clamp(ceil(p·n) − 1, 0, n−1)`; an empty list reports 0; on `[10,20,30,40]`
p50 is 20 and p95 is 40; and the telemetry summary computes its p50/p95
over the durations of non-cached results only. -/
theorem c4_percentile :
    (∀ (values : List Nat) (p : ℚ) (sortedL : List Nat), values ≠ [] → 0 ≤ p → p ≤ 1 →
      sortedL.Perm values → sortedL.Sorted (· ≤ ·) →
      calculatePercentile values p =
        sortedL.getD
          ((max 0 (min ((values.length : Int) - 1) (⌈p * values.length⌉ - 1))).toNat) 0) ∧
    (∀ p : ℚ, calculatePercentile [] p = 0) ∧
    calculatePercentile [10, 20, 30, 40] (1/2) = 20 ∧
    calculatePercentile [10, 20, 30, 40] (19/20) = 40 ∧
    (∀ (d : Nat) (results : List TestResult) (e : Nat),
      (buildTelemetrySummary d results e).p50Ms =
        calculatePercentile
          ((results.filter (fun r => !r.cached)).map (fun r => r.duration)) (1/2) ∧
      (buildTelemetrySummary d results e).p95Ms =
        calculatePercentile
          ((results.filter (fun r => !r.cached)).map (fun r => r.duration)) (19/20)) := by
  refine ⟨calculatePercentile_spec, fun p => rfl, ?_, ?_, fun d results e => ⟨rfl, rfl⟩⟩
  · norm_num [calculatePercentile, List.insertionSort, List.orderedInsert]
    decide
  · have hc : (⌈(19/5 : ℚ)⌉ : Int) = 4 := by
      rw [Int.ceil_eq_iff]
      norm_num
    norm_num [calculatePercentile, List.insertionSort, List.orderedInsert, hc]
    decide

/-- C4 witness: the sorted-index characterization applied to the unsorted
list `[30,10,40,20]` at percentile 1 with sorted witness `[10,20,30,40]`. -/
theorem c4_percentile_witness :
    calculatePercentile [30, 10, 40, 20] 1 =
      [10, 20, 30, 40].getD
        ((max 0 (min ((([30, 10, 40, 20] : List Nat).length : Int) - 1)
          (⌈(1 : ℚ) * ([30, 10, 40, 20] : List Nat).length⌉ - 1))).toNat) 0 :=
  c4_percentile.1 [30, 10, 40, 20] 1 [10, 20, 30, 40] (by decide) (by decide) (by decide)
    (by decide) (by decide)

/-! ### Claim C5 — sticky-cache partition -/

/-- C5 counterexample: a stored entry with `passCount = -1` whose
fingerprint matches yields a synthesized cached result with `passCount = 0`
(the `Math.max(0, ·)` clamp), not the entry's own count as the claim
states. -/
theorem c5_counterexample :
    (partitionSticky fpConst [("a", entryNeg)] ["a"]).cachedResults =
      [mkCachedResult "a" entryNeg] ∧
    lookupEntry [("a", entryNeg)] "a" = some entryNeg ∧
    fpConst "a" = some entryNeg.fingerprint ∧
    (mkCachedResult "a" entryNeg).passCount = 0 ∧
    (mkCachedResult "a" entryNeg).passCount ≠ entryNeg.passCount ∧
    (mkCachedResult "a" entryNeg).skipCount ≠ entryNeg.skipCount := by
  decide

/-- C5 (amended): during partition a unit with a `null` fingerprint is
always runnable; a unit whose stored entry carries the freshly computed
fingerprint becomes a cached result with `cached = true`, `passed = true`,
`duration = 0`, `failCount = 0` and the entry's counts clamped below at 0;
any other unit is runnable; and no unit is both runnable and cached. -/
theorem c5_partition (fpOf : String → Option String)
    (entries : List (String × StickyPassCacheEntry)) (files : List String) :
    (partitionSticky fpOf entries files).runnableFiles =
      files.filter (fun f => (cachedResultFor fpOf entries f).isNone) ∧
    (partitionSticky fpOf entries files).cachedResults =
      files.filterMap (cachedResultFor fpOf entries) ∧
    (∀ f, fpOf f = none → cachedResultFor fpOf entries f = none) ∧
    (∀ f fp e, fpOf f = some fp → lookupEntry entries f = some e →
      (e.fingerprint = fp → cachedResultFor fpOf entries f = some (mkCachedResult f e)) ∧
      (e.fingerprint ≠ fp → cachedResultFor fpOf entries f = none)) ∧
    (∀ f fp, fpOf f = some fp → lookupEntry entries f = none →
      cachedResultFor fpOf entries f = none) ∧
    (∀ f e, (mkCachedResult f e).cached = true ∧ (mkCachedResult f e).passed = true ∧
      (mkCachedResult f e).duration = 0 ∧ (mkCachedResult f e).failCount = 0 ∧
      (mkCachedResult f e).passCount = max 0 e.passCount ∧
      (mkCachedResult f e).skipCount = max 0 e.skipCount) ∧
    (∀ f, f ∈ (partitionSticky fpOf entries files).runnableFiles →
      ∀ r ∈ (partitionSticky fpOf entries files).cachedResults, r.file ≠ f) := by
  refine ⟨partitionSticky_runnable fpOf entries files,
    partitionSticky_cached fpOf entries files, ?_, ?_, ?_,
    fun f e => ⟨rfl, rfl, rfl, rfl, rfl, rfl⟩,
    partitionSticky_disjoint fpOf entries files⟩
  · intro f hf
    unfold cachedResultFor
    rw [hf]
  · intro f fp e hf he
    constructor
    · intro hfp
      unfold cachedResultFor
      rw [hf, he]
      show (if e.fingerprint = fp then some (mkCachedResult f e) else none) =
        some (mkCachedResult f e)
      rw [if_pos hfp]
    · intro hfp
      unfold cachedResultFor
      rw [hf, he]
      show (if e.fingerprint = fp then some (mkCachedResult f e) else none) = none
      rw [if_neg hfp]
  · intro f fp hf he
    unfold cachedResultFor
    rw [hf, he]

/-- C5 witness: partition of a single matching unit with a negative stored
count, exercising the cached branch and the clamps. -/
theorem c5_partition_witness :
    cachedResultFor fpConst [("a", entryNeg)] "a" = some (mkCachedResult "a" entryNeg) ∧
    (mkCachedResult "a" entryNeg).passCount = max 0 entryNeg.passCount ∧
    (partitionSticky fpConst [("a", entryNeg)] ["a"]).runnableFiles =
      (["a"].filter (fun f => (cachedResultFor fpConst [("a", entryNeg)] f).isNone)) :=
  ⟨((c5_partition fpConst [("a", entryNeg)] ["a"]).2.2.2.1 "a" "fp" entryNeg (by decide)
      (by decide)).1 (by decide),
   ((c5_partition fpConst [("a", entryNeg)] ["a"]).2.2.2.2.2.1 "a" entryNeg).2.2.2.2.1,
   (c5_partition fpConst [("a", entryNeg)] ["a"]).1⟩

/-! ### Claim C9 — CLI exit code -/

/-- C9: the CLI exits via `results.failed > 0`, where `failed` is the sum
of the parsed per-file `failCount`s, not the number of Failed files.  A
single unit that times out with no captured output has `passed = false`
but parsed `failCount = 0`, so the run records one failed file (and even
reports it in its totals) yet the process exits 0 — contradicting both the
specified exit behavior and the run's own "tests failed" classification. -/
theorem c9_exit_code_bug :
    mainExitCode (runIsolated ["t.test.ts"] cfgPlain oraclesTimeout
      (schedOne "t.test.ts") []) = 0 ∧
    ((runIsolated ["t.test.ts"] cfgPlain oraclesTimeout (schedOne "t.test.ts") []).results.map
      (fun r => r.passed)) = [false] ∧
    (runIsolated ["t.test.ts"] cfgPlain oraclesTimeout
      (schedOne "t.test.ts") []).filesWithFailures = 1 ∧
    (runIsolated ["t.test.ts"] cfgPlain oraclesTimeout
      (schedOne "t.test.ts") []).totalFail = 0 ∧
    isFinalPool (runIsolated ["t.test.ts"] cfgPlain oraclesTimeout
      (schedOne "t.test.ts") []).pass1 := by
  decide

/-! ### Claim C10 — count non-negativity -/

/-- C10: every result in a run's final list — over every cache file
content, every oracle and every schedule — has non-negative pass, fail and
skip counts: executed results parse them as natural numbers (or use the
fixed 0/1/0 spawn-failure counts), and synthesized cached results clamp the
stored counts through `Math.max(0, ·)`. -/
theorem c10_counts_nonneg (files : List String) (cfg : IsoConfig) (or : IsoOracles)
    (s1 s2 : List Choice) (r : TestResult)
    (hr : r ∈ (runIsolated files cfg or s1 s2).results) :
    0 ≤ r.passCount ∧ 0 ≤ r.failCount ∧ 0 ≤ r.skipCount := by
  rw [runIsolated_results] at hr
  rcases List.mem_append.mp hr with hc | he
  · rw [runIsolated_part] at hc
    by_cases hs : cfg.stickyPassEnabled
    · rw [if_pos hs, partitionSticky_cached] at hc
      obtain ⟨g, _, hg⟩ := List.mem_filterMap.mp hc
      obtain ⟨e, _, hre⟩ := cachedResultFor_eq hg
      rw [hre]
      exact ⟨le_max_left 0 _, le_refl 0, le_max_left 0 _⟩
    · rw [if_neg hs] at hc
      simp at hc
  · rcases runIsolated_runResults_exec files cfg or s1 s2 r he with h | h
    · rw [h]
      exact runTestFile_counts_nonneg r.file (or.procOutcome1 r.file)
    · rw [h]
      exact runTestFile_counts_nonneg r.file (or.procOutcome2 r.file)

/-- C10 witness: the non-negativity of the timed-out unit's result (whose
counts are all parsed from empty output) in a concrete completed run. -/
theorem c10_counts_nonneg_witness :
    0 ≤ (runTestFile "t.test.ts" timeoutOutcome).passCount ∧
    0 ≤ (runTestFile "t.test.ts" timeoutOutcome).failCount ∧
    0 ≤ (runTestFile "t.test.ts" timeoutOutcome).skipCount :=
  c10_counts_nonneg ["t.test.ts"] cfgPlain oraclesTimeout (schedOne "t.test.ts") []
    (runTestFile "t.test.ts" timeoutOutcome) (by decide)

/-! ### Claim C8 — one result per executed or cache-hit unit -/

/-- C8: over pairwise-distinct unit paths, the final result list is exactly
the cached results followed by the executed results (retry replaces in
place, preserving the file at each position), its files are pairwise
distinct (exactly one result per executed or cache-hit unit), a unit has a
result iff it was cache-hit or executed (so a unit dropped by the failure
budget contributes none), and no unit is both runnable and cached. -/
theorem c8_unique_results (files : List String) (cfg : IsoConfig) (or : IsoOracles)
    (s1 s2 : List Choice) (hnd : files.Nodup) :
    (runIsolated files cfg or s1 s2).results.map TestResult.file =
      (runIsolated files cfg or s1 s2).part.cachedResults.map TestResult.file ++
        (runIsolated files cfg or s1 s2).pass1.results.map TestResult.file ∧
    ((runIsolated files cfg or s1 s2).results.map TestResult.file).Nodup ∧
    (∀ f, f ∈ (runIsolated files cfg or s1 s2).results.map TestResult.file ↔
      (f ∈ (runIsolated files cfg or s1 s2).part.cachedResults.map TestResult.file ∨
        f ∈ (runIsolated files cfg or s1 s2).pass1.results.map TestResult.file)) ∧
    (∀ f ∈ (runIsolated files cfg or s1 s2).part.runnableFiles,
      ∀ r ∈ (runIsolated files cfg or s1 s2).part.cachedResults, r.file ≠ f) := by
  have heq : (runIsolated files cfg or s1 s2).results.map TestResult.file =
      (runIsolated files cfg or s1 s2).part.cachedResults.map TestResult.file ++
        (runIsolated files cfg or s1 s2).pass1.results.map TestResult.file := by
    rw [runIsolated_results, List.map_append, runIsolated_runResults_files]
  have hrun_nodup : (runIsolated files cfg or s1 s2).part.runnableFiles.Nodup :=
    hnd.sublist (runIsolated_runnable_sublist files cfg or s1 s2)
  have hpass1_nodup : ((runIsolated files cfg or s1 s2).pass1.results.map
      TestResult.file).Nodup :=
    pool_results_nodup _ _ _ (runIsolated_pass1_acc files cfg or s1 s2) hrun_nodup
  have hpass1_sub : ∀ f, f ∈ (runIsolated files cfg or s1 s2).pass1.results.map
      TestResult.file → f ∈ (runIsolated files cfg or s1 s2).part.runnableFiles := by
    intro f hf
    have hle := poolAcc_results_le _ _ _ (runIsolated_pass1_acc files cfg or s1 s2)
    have : f ∈ (↑((runIsolated files cfg or s1 s2).part.runnableFiles) : Multiset String) :=
      Multiset.mem_of_le hle (by exact_mod_cast hf)
    exact_mod_cast this
  have hnodup : ((runIsolated files cfg or s1 s2).results.map TestResult.file).Nodup := by
    rw [heq]
    rw [runIsolated_part]
    by_cases hs : cfg.stickyPassEnabled
    · rw [if_pos hs]
      rw [partitionSticky_cached_files]
      have hcached_nodup : (files.filter (fun f =>
          (cachedResultFor (buildStickyFingerprint or.hash or.readFile or.runSalt)
            (runIsolated files cfg or s1 s2).payload0.entries f).isSome)).Nodup :=
        hnd.filter _
      refine hcached_nodup.append hpass1_nodup ?_
      intro f hf1 hf2
      have hf1' := List.mem_filter.mp hf1
      have hf2' := hpass1_sub f hf2
      rw [runIsolated_part, if_pos hs, partitionSticky_runnable] at hf2'
      have hf2'' := List.mem_filter.mp hf2'
      have hsome := hf1'.2
      have hnone := hf2''.2
      simp only [Option.isSome_iff_exists, decide_eq_true_eq] at hsome
      simp only [Option.isNone_iff_eq_none, decide_eq_true_eq] at hnone
      obtain ⟨x, hx⟩ := hsome
      rw [hnone] at hx
      exact absurd hx (by simp)
    · rw [if_neg hs]
      simpa using hpass1_nodup
  refine ⟨heq, hnodup, ?_, ?_⟩
  · intro f
    rw [heq, List.mem_append]
  · rw [runIsolated_part]
    by_cases hs : cfg.stickyPassEnabled
    · rw [if_pos hs]
      exact partitionSticky_disjoint _ _ files
    · rw [if_neg hs]
      intro f _ r hr
      simp at hr

/-- C8 witness: a two-unit run with distinct paths yields pairwise-distinct
result files matching the cached-then-executed decomposition. -/
theorem c8_unique_results_witness :
    ((runIsolated ["x.test.ts", "y.test.ts"] cfgPlain oraclesPlain
      (schedTwo "x.test.ts" "y.test.ts") []).results.map TestResult.file).Nodup ∧
    (runIsolated ["x.test.ts", "y.test.ts"] cfgPlain oraclesPlain
      (schedTwo "x.test.ts" "y.test.ts") []).results.map TestResult.file =
      (runIsolated ["x.test.ts", "y.test.ts"] cfgPlain oraclesPlain
        (schedTwo "x.test.ts" "y.test.ts") []).part.cachedResults.map TestResult.file ++
        (runIsolated ["x.test.ts", "y.test.ts"] cfgPlain oraclesPlain
          (schedTwo "x.test.ts" "y.test.ts") []).pass1.results.map TestResult.file :=
  ⟨(c8_unique_results ["x.test.ts", "y.test.ts"] cfgPlain oraclesPlain
      (schedTwo "x.test.ts" "y.test.ts") [] (by decide)).2.1,
   (c8_unique_results ["x.test.ts", "y.test.ts"] cfgPlain oraclesPlain
      (schedTwo "x.test.ts" "y.test.ts") [] (by decide)).1⟩

/-! ### Claim C6 — sticky-cache commit -/

/-- C6 counterexample: with the duplicated unit path `a` run under one
retry, the first pass fails twice and both retries pass, but each retry
replaces the first list entry, leaving `[passed, failed]`; the commit loop
then inserts and immediately deletes the entry, so an executed Passed
result for `a` ends with no cache entry even though its fingerprint was
computed and non-empty. -/
theorem c6_counterexample :
    ((runIsolated ["a", "a"] cfgStickyRetry oraclesFlaky (schedTwo "a" "a")
      (schedTwo "a" "a")).runResults.map (fun r => (r.file, r.passed, r.cached))) =
      [("a", true, false), ("a", false, false)] ∧
    lookupEntry (runIsolated ["a", "a"] cfgStickyRetry oraclesFlaky (schedTwo "a" "a")
      (schedTwo "a" "a")).part.fpByFile "a" = some "salt|a|body-a" ∧
    ("salt|a|body-a" : String) ≠ "" ∧
    lookupEntry (runIsolated ["a", "a"] cfgStickyRetry oraclesFlaky (schedTwo "a" "a")
      (schedTwo "a" "a")).entriesAfter "a" = none := by
  decide

/-- C6 (amended): for runs over pairwise-distinct unit paths with the
sticky cache enabled, after commit every executed (non-cached) result with
a recorded non-empty fingerprint leaves exactly the claimed trace: a Passed
result's entry holds that fingerprint and the result's own (non-negative)
counts, a Failed result's entry is absent, and entries of cache-hit units
are untouched.  Consequently — with the digest collision-free and salts of
equal length — a later run's fingerprint can only match if the run salt and
the content digest are both unchanged. -/
theorem c6_commit (files : List String) (cfg : IsoConfig) (or : IsoOracles)
    (s1 s2 : List Choice) (hnd : files.Nodup) (hs : cfg.stickyPassEnabled = true) :
    (∀ r ∈ (runIsolated files cfg or s1 s2).runResults,
      r.cached = false ∧
      (∀ fp, lookupEntry (runIsolated files cfg or s1 s2).part.fpByFile r.file = some fp →
        fp ≠ "" →
        (r.passed = true →
          lookupEntry (runIsolated files cfg or s1 s2).entriesAfter r.file =
            some { fingerprint := fp, passCount := r.passCount
                   skipCount := r.skipCount, updatedAt := or.now }) ∧
        (r.passed = false →
          lookupEntry (runIsolated files cfg or s1 s2).entriesAfter r.file = none))) ∧
    (∀ r ∈ (runIsolated files cfg or s1 s2).part.cachedResults,
      lookupEntry (runIsolated files cfg or s1 s2).entriesAfter r.file =
        lookupEntry (runIsolated files cfg or s1 s2).payload0.entries r.file) ∧
    (∀ (hash : String → String) (salt salt' f c c' : String),
      Function.Injective hash → salt.length = salt'.length →
      hash (salt ++ "|" ++ f ++ "|" ++ hash c) = hash (salt' ++ "|" ++ f ++ "|" ++ hash c') →
      salt = salt' ∧ hash c = hash c') := by
  have hrr_files := runIsolated_runResults_files files cfg or s1 s2
  have hrun_nodup : (runIsolated files cfg or s1 s2).part.runnableFiles.Nodup :=
    hnd.sublist (runIsolated_runnable_sublist files cfg or s1 s2)
  have hpass1_nodup : ((runIsolated files cfg or s1 s2).pass1.results.map
      TestResult.file).Nodup :=
    pool_results_nodup _ _ _ (runIsolated_pass1_acc files cfg or s1 s2) hrun_nodup
  have hrr_nodup : ((runIsolated files cfg or s1 s2).runResults.map TestResult.file).Nodup := by
    rw [hrr_files]; exact hpass1_nodup
  have hentries : (runIsolated files cfg or s1 s2).entriesAfter =
      commitSticky (runIsolated files cfg or s1 s2).part.fpByFile or.now
        (runIsolated files cfg or s1 s2).payload0.entries
        (runIsolated files cfg or s1 s2).runResults := by
    rw [runIsolated_entriesAfter, if_pos hs]
  refine ⟨?_, ?_, ?_⟩
  · intro r hr
    have hexec := runIsolated_runResults_exec files cfg or s1 s2 r hr
    have hcached : r.cached = false := by
      rcases hexec with h | h
      · rw [h]; exact runTestFile_cached _ _
      · rw [h]; exact runTestFile_cached _ _
    have hcounts : 0 ≤ r.passCount ∧ 0 ≤ r.failCount ∧ 0 ≤ r.skipCount := by
      rcases hexec with h | h
      · rw [h]; exact runTestFile_counts_nonneg _ _
      · rw [h]; exact runTestFile_counts_nonneg _ _
    refine ⟨hcached, ?_⟩
    intro fp hfp hfpne
    have hlook : lookupEntry (runIsolated files cfg or s1 s2).entriesAfter r.file =
        commitOutcome (runIsolated files cfg or s1 s2).part.fpByFile or.now r
          (lookupEntry (runIsolated files cfg or s1 s2).payload0.entries r.file) := by
      rw [hentries]
      exact commitSticky_lookup _ or.now _ _ r hrr_nodup hr
    constructor
    · intro hpassed
      rw [hlook]
      unfold commitOutcome
      rw [hfp]
      show (if fp = "" then _ else if r.passed then _ else _) = _
      rw [if_neg hfpne, if_pos (by rw [hpassed])]
      have h1 : max 0 r.passCount = r.passCount := max_eq_right hcounts.1
      have h2 : max 0 r.skipCount = r.skipCount := max_eq_right hcounts.2.2
      rw [h1, h2]
    · intro hfailed
      rw [hlook]
      unfold commitOutcome
      rw [hfp]
      show (if fp = "" then _ else if r.passed then _ else _) = _
      rw [if_neg hfpne, if_neg (by rw [hfailed]; simp)]
  · intro r hr
    have hfile : r.file ∉ (runIsolated files cfg or s1 s2).runResults.map
        TestResult.file := by
      rw [hrr_files]
      intro hmem
      have hrun : r.file ∈ (runIsolated files cfg or s1 s2).part.runnableFiles := by
        have hle := poolAcc_results_le _ _ _ (runIsolated_pass1_acc files cfg or s1 s2)
        have : r.file ∈
            (↑((runIsolated files cfg or s1 s2).part.runnableFiles) : Multiset String) :=
          Multiset.mem_of_le hle (by exact_mod_cast hmem)
        exact_mod_cast this
      have hcachedmem : r.file ∈ (runIsolated files cfg or s1 s2).part.cachedResults.map
          TestResult.file := List.mem_map_of_mem TestResult.file hr
      rw [runIsolated_part, if_pos hs, partitionSticky_cached_files] at hcachedmem
      rw [runIsolated_part, if_pos hs, partitionSticky_runnable] at hrun
      have hsome := (List.mem_filter.mp hcachedmem).2
      have hnone := (List.mem_filter.mp hrun).2
      simp only [Option.isSome_iff_exists, decide_eq_true_eq] at hsome
      simp only [Option.isNone_iff_eq_none, decide_eq_true_eq] at hnone
      obtain ⟨x, hx⟩ := hsome
      rw [hnone] at hx
      exact absurd hx (by simp)
    rw [hentries]
    exact commitSticky_untouched _ or.now _ _ r.file hfile
  · intro hash salt salt' f c c' hinj hl heq
    have hpre := hinj heq
    exact fingerprint_preimage_inj salt salt' f (hash c) (hash c') hl hpre

/-- C6 witness: in the concrete sticky scenario (`p` a cache hit, `q`
passing, `r` failing), the committed payload holds `q`'s fresh entry with
its parsed counts, drops `r`'s stale entry, and leaves `p`'s untouched; the
salt/digest consequence instantiated at the identity digest. -/
theorem c6_commit_witness :
    lookupEntry (runIsolated ["p.test.ts", "q.test.ts", "r.test.ts"] cfgSticky
      oraclesSticky (schedTwo "q.test.ts" "r.test.ts") []).entriesAfter "q.test.ts" =
      some { fingerprint := "salt|q.test.ts|body-q.test.ts", passCount := 1
             skipCount := 0, updatedAt := "t0" } ∧
    lookupEntry (runIsolated ["p.test.ts", "q.test.ts", "r.test.ts"] cfgSticky
      oraclesSticky (schedTwo "q.test.ts" "r.test.ts") []).entriesAfter "r.test.ts" = none ∧
    lookupEntry (runIsolated ["p.test.ts", "q.test.ts", "r.test.ts"] cfgSticky
      oraclesSticky (schedTwo "q.test.ts" "r.test.ts") []).entriesAfter "p.test.ts" =
      lookupEntry (runIsolated ["p.test.ts", "q.test.ts", "r.test.ts"] cfgSticky
        oraclesSticky (schedTwo "q.test.ts" "r.test.ts") []).payload0.entries "p.test.ts" ∧
    (("sa" : String) = "sa" ∧ (fun s : String => s) "c" = (fun s : String => s) "c") := by
  have h := c6_commit ["p.test.ts", "q.test.ts", "r.test.ts"] cfgSticky oraclesSticky
    (schedTwo "q.test.ts" "r.test.ts") [] (by decide) (by decide)
  refine ⟨?_, ?_, ?_,
    h.2.2 (fun s => s) "sa" "sa" "f" "c" "c" (fun a b hab => hab) rfl rfl⟩
  · have hq := (h.1 (runTestFile "q.test.ts" passOutcome) (by decide)).2
      "salt|q.test.ts|body-q.test.ts" (by decide) (by decide)
    have := hq.1 (by decide)
    simpa using this
  · have hrq := (h.1 (runTestFile "r.test.ts" failOutcome) (by decide)).2
      "salt|r.test.ts|body-r.test.ts" (by decide) (by decide)
    have := hrq.2 (by decide)
    simpa using this
  · exact h.2.1 (mkCachedResult "p.test.ts"
      { fingerprint := "salt|p.test.ts|body-p.test.ts", passCount := 3, skipCount := 1
        updatedAt := "t-1" }) (by decide)

/-! ### Claim C7 — retry pass -/

/-- C7 counterexample: with the duplicated unit path `d`, both first-pass
results fail and both retries pass, but both retry results replace the
first list entry (matched by path), so the final list still holds the
record of an earlier failed attempt at index 1. -/
theorem c7_counterexample :
    (runIsolated ["d", "d"] cfgRetry oraclesFlaky (schedTwo "d" "d")
      (schedTwo "d" "d")).retryResults.map (fun r => r.passed) = [true, true] ∧
    (runIsolated ["d", "d"] cfgRetry oraclesFlaky (schedTwo "d" "d")
      (schedTwo "d" "d")).runResults.map (fun r => (r.file, r.passed)) =
      [("d", true), ("d", false)] := by
  decide

/-- C7 (amended): for runs over pairwise-distinct unit paths with
`retries > 0` and at least one worker, the retry pass receives exactly the
files of the Failed first-pass results, runs them through the pool with an
unbounded budget, and in any completed retry interleaving re-executes every
one of them; each position of the final executed list holds the first-pass
result if it passed and the retry execution of that unit otherwise, so no
record of a failed first attempt survives for a retried unit; the list
length is unchanged. -/
theorem c7_retry (files : List String) (cfg : IsoConfig) (or : IsoOracles)
    (s1 s2 : List Choice) (hnd : files.Nodup) (hp : 1 ≤ cfg.parallel)
    (hretry : 0 < cfg.retries)
    (hfin2 : isFinalPool (runIsolated files cfg or s1 s2).retryPool) :
    (runIsolated files cfg or s1 s2).retryFiles =
      ((runIsolated files cfg or s1 s2).pass1.results.filter (fun r => !r.passed)).map
        (fun r => r.file) ∧
    (runIsolated files cfg or s1 s2).retryPool =
      runPool (fun f => runTestFile f (or.procOutcome2 f)) none
        (initPool (runIsolated files cfg or s1 s2).retryFiles cfg.parallel) s2 ∧
    ((runIsolated files cfg or s1 s2).failedFirstPass ≠ [] →
      ((runIsolated files cfg or s1 s2).retryResults.map TestResult.file).Perm
        (runIsolated files cfg or s1 s2).retryFiles) ∧
    (∀ j : Nat, (runIsolated files cfg or s1 s2).runResults.get? j =
      ((runIsolated files cfg or s1 s2).pass1.results.get? j).map
        (fun r => if r.passed then r else runTestFile r.file (or.procOutcome2 r.file))) ∧
    (runIsolated files cfg or s1 s2).runResults.length =
      (runIsolated files cfg or s1 s2).pass1.results.length := by
  have hrun_nodup : (runIsolated files cfg or s1 s2).part.runnableFiles.Nodup :=
    hnd.sublist (runIsolated_runnable_sublist files cfg or s1 s2)
  have hpass1_acc := runIsolated_pass1_acc files cfg or s1 s2
  have hpass1_nodup : ((runIsolated files cfg or s1 s2).pass1.results.map
      TestResult.file).Nodup :=
    pool_results_nodup _ _ _ hpass1_acc hrun_nodup
  have hfail_sub : ((runIsolated files cfg or s1 s2).failedFirstPass.map
      (fun r => r.file)).Sublist
      ((runIsolated files cfg or s1 s2).pass1.results.map TestResult.file) := by
    rw [runIsolated_failedFirstPass]
    exact (List.filter_sublist _).map TestResult.file
  have hretryFiles_nodup : (runIsolated files cfg or s1 s2).retryFiles.Nodup := by
    rw [runIsolated_retryFiles]
    exact hpass1_nodup.sublist hfail_sub
  have hretryFiles_ne : ("" : String) ∉ (runIsolated files cfg or s1 s2).retryFiles := by
    rw [runIsolated_retryFiles, runIsolated_failedFirstPass]
    intro hmem
    obtain ⟨r, hr, hrf⟩ := List.mem_map.mp hmem
    have hr' := List.mem_of_mem_filter hr
    exact (hpass1_acc.2.2.1 r hr').2 hrf
  have hretry_acc := runIsolated_retry_acc files cfg or s1 s2
  have hretry_stop : PoolStop none (runIsolated files cfg or s1 s2).retryFiles
      (runIsolated files cfg or s1 s2).retryPool := by
    rw [runIsolated_retryPool]
    exact (poolInv_run _ _ _ _ s2 (fun f => runTestFile_file f _)
      (poolAcc_init _ _ cfg.parallel)
      (poolStop_init _ _ cfg.parallel (Or.inr hp))).2
  have hcomplete : ((runIsolated files cfg or s1 s2).retryPool.results.map
      TestResult.file).Perm (runIsolated files cfg or s1 s2).retryFiles :=
    (pool_final_complete _ _ _ hfin2 hretry_acc hretry_stop hretryFiles_ne).2
  refine ⟨rfl, rfl, ?_, ?_, runIsolated_runResults_length files cfg or s1 s2⟩
  · intro hne
    rw [runIsolated_retryResults, if_pos ⟨hretry, hne⟩]
    exact hcomplete
  · intro j
    by_cases hfailed : (runIsolated files cfg or s1 s2).failedFirstPass = []
    · have hrr : (runIsolated files cfg or s1 s2).runResults =
          (runIsolated files cfg or s1 s2).pass1.results := by
        rw [runIsolated_runResults, if_neg (fun h => h.2 hfailed)]
      rw [hrr]
      cases hj : (runIsolated files cfg or s1 s2).pass1.results.get? j with
      | none => simp
      | some r =>
        have hrmem := List.get?_mem hj
        have hrp : r.passed = true := by
          rw [runIsolated_failedFirstPass] at hfailed
          have := List.filter_eq_nil_iff.mp hfailed r hrmem
          simpa using this
        simp [hrp]
    · have hrr : (runIsolated files cfg or s1 s2).runResults =
          applyRetryReplacements (runIsolated files cfg or s1 s2).pass1.results
            (runIsolated files cfg or s1 s2).retryResults := by
        rw [runIsolated_runResults, if_pos ⟨hretry, hfailed⟩]
      have hretryRes : (runIsolated files cfg or s1 s2).retryResults =
          (runIsolated files cfg or s1 s2).retryPool.results := by
        rw [runIsolated_retryResults, if_pos ⟨hretry, hfailed⟩]
      have hretry_nodup : ((runIsolated files cfg or s1 s2).retryResults.map
          TestResult.file).Nodup := by
        rw [hretryRes]
        exact hcomplete.nodup_iff.mpr hretryFiles_nodup
      rw [hrr, applyRetryReplacements_get _ _ hpass1_nodup hretry_nodup j]
      cases hj : (runIsolated files cfg or s1 s2).pass1.results.get? j with
      | none => simp
      | some r =>
        have hrmem := List.get?_mem hj
        simp only [Option.map_some']
        by_cases hrp : r.passed
        · have hfind : (runIsolated files cfg or s1 s2).retryResults.find?
              (fun t => t.file = r.file) = none := by
            rw [List.find?_eq_none]
            intro t ht
            simp only [decide_eq_true_eq]
            intro hcontr
            have htf : t.file ∈ (runIsolated files cfg or s1 s2).retryFiles := by
              refine hcomplete.subset ?_
              rw [← hretryRes]
              exact List.mem_map_of_mem TestResult.file ht
            rw [runIsolated_retryFiles, runIsolated_failedFirstPass] at htf
            obtain ⟨r', hr', hrf'⟩ := List.mem_map.mp htf
            have hr'' := List.mem_of_mem_filter hr'
            have hrfail : ¬r'.passed := by
              have := (List.mem_filter.mp hr').2
              simpa using this
            have : r' = r := List.inj_on_of_nodup_map hpass1_nodup hr'' hrmem
              (by rw [hrf', hcontr])
            rw [this] at hrfail
            exact hrfail hrp
          rw [hfind, if_pos hrp]
        · have hrfailmem : r.file ∈ (runIsolated files cfg or s1 s2).retryFiles := by
            rw [runIsolated_retryFiles, runIsolated_failedFirstPass]
            refine List.mem_map_of_mem _ (List.mem_filter.mpr ⟨hrmem, by simpa using hrp⟩)
          have hexists : r.file ∈ (runIsolated files cfg or s1 s2).retryResults.map
              TestResult.file := by
            rw [hretryRes]
            exact (hcomplete.mem_iff).mpr hrfailmem
          cases hfind : (runIsolated files cfg or s1 s2).retryResults.find?
              (fun t => t.file = r.file) with
          | none =>
            exfalso
            rw [List.find?_eq_none] at hfind
            obtain ⟨t, ht, htf⟩ := List.mem_map.mp hexists
            exact absurd (by simpa using htf) (hfind t ht)
          | some t =>
            have htr : t.file = r.file := by
              have := List.find?_some hfind
              simpa using this
            have htmem := List.mem_of_find?_eq_some hfind
            have hteq : t = runTestFile t.file (or.procOutcome2 t.file) := by
              rw [hretryRes] at htmem
              exact (hretry_acc.2.2.1 t htmem).1
            rw [if_neg hrp, hteq, htr]

/-- C7 witness: a flaky unit failing once then passing on retry, beside a
stable passing unit: the retry pass covers exactly the failed file and the
final position 0 holds the retry execution. -/
theorem c7_retry_witness :
    ((runIsolated ["first.test.ts", "second.test.ts"] cfgRetry oraclesOneFlaky
      (schedTwo "first.test.ts" "second.test.ts")
      (schedOne "first.test.ts")).retryResults.map TestResult.file).Perm
      (runIsolated ["first.test.ts", "second.test.ts"] cfgRetry oraclesOneFlaky
        (schedTwo "first.test.ts" "second.test.ts")
        (schedOne "first.test.ts")).retryFiles ∧
    (runIsolated ["first.test.ts", "second.test.ts"] cfgRetry oraclesOneFlaky
      (schedTwo "first.test.ts" "second.test.ts")
      (schedOne "first.test.ts")).runResults.get? 0 =
      ((runIsolated ["first.test.ts", "second.test.ts"] cfgRetry oraclesOneFlaky
        (schedTwo "first.test.ts" "second.test.ts")
        (schedOne "first.test.ts")).pass1.results.get? 0).map
        (fun r => if r.passed then r
          else runTestFile r.file (oraclesOneFlaky.procOutcome2 r.file)) :=
  ⟨(c7_retry ["first.test.ts", "second.test.ts"] cfgRetry oraclesOneFlaky
      (schedTwo "first.test.ts" "second.test.ts") (schedOne "first.test.ts")
      (by decide) (by decide) (by decide) (by decide)).2.2.1 (by decide),
   (c7_retry ["first.test.ts", "second.test.ts"] cfgRetry oraclesOneFlaky
      (schedTwo "first.test.ts" "second.test.ts") (schedOne "first.test.ts")
      (by decide) (by decide) (by decide) (by decide)).2.2.2.1 0⟩

end IsolatedRunner
